import Mathlib

/-!
# Verification of the `hm-lexer` byte-oriented lexical analyzer

Shallow embedding of the `hm-lexer` crate (`src/hm-lexer/src/`):

* `CharStream` and its operations mirror `src/hm-lexer/src/charstream.rs`.
* `Token`, `Span`, `TokenKind` and the operator enums mirror
  `src/hm-lexer/src/token/` (`span.rs`, `tokenkind.rs`, `operators/`).
* `LexError` mirrors `src/hm-lexer/src/lexerror.rs`.
* `Lexer.next_token`, `Lexer.skip_trivia`, and the `lex_*` scanners mirror
  `src/hm-lexer/src/lexer.rs`, which contains the only reachable
  `next_token` of the crate (`lexer.rs` declares no submodules, so the
  alternate revisions under `src/hm-lexer/src/lexer/` are dead code and are
  not embedded here).

Bytes are modelled as `Nat` values `< 256`; Rust `String` values are
modelled as the list of bytes of their UTF-8 encoding, except where a value
is built from pushed `char`s, in which case the list of code points is kept
(see the individual definitions).  Loops are modelled with an explicit fuel
argument that is always instantiated, by the wrapper definitions, with a
bound that exceeds the number of iterations the loop can perform.
-/

namespace HmLexer

/-- Char stream state, mirroring `struct CharStream` in `charstream.rs`:
owned byte buffer, 0-based byte index, 1-based line and column. -/
structure CharStream where
  input : List Nat
  index : Nat
  line : Nat
  column : Nat
deriving DecidableEq, Repr

/-- `LexError` from `lexerror.rs`.  `ch` carries the code point of the Rust
`char`; `sequence` carries the code points of the escape-sequence string;
`lexeme` carries the bytes of the offending lexeme string. -/
inductive LexError where
  | UnexpectedCharacter (ch : Nat) (line : Nat) (column : Nat)
  | UnterminatedString (line : Nat) (column : Nat)
  | InvalidEscape (sequence : List Nat) (line : Nat) (column : Nat)
  | InvalidNumber (lexeme : List Nat) (line : Nat) (column : Nat)
  | UnexpectedEof (line : Nat) (column : Nat)
  | InvalidUtf8 (line : Nat) (column : Nat)
  | EmptyInput
  | InputTooLarge (size : Nat)
deriving DecidableEq, Repr

/-- `Span` from `token/span.rs`.  The Rust field `end` is a Lean keyword and
is rendered `endPos`. -/
structure Span where
  start : Nat
  endPos : Nat
  line_start : Nat
  column_start : Nat
  line_end : Nat
  column_end : Nat
deriving DecidableEq, Repr

/-- `ArithmeticOperator` from `token/operators/arithmetic.rs` (the variant
set used by `lexer.rs`). -/
inductive ArithmeticOperator where
  | Plus | Minus | Asterisk | Slash | Modulo | Exponent
deriving DecidableEq, Repr

/-- `AssignmentOperator` from `token/operators/assignment.rs`. -/
inductive AssignmentOperator where
  | Assign | AddAssign | SubtractAssign | MultiplyAssign | DivideAssign | ModuloAssign
deriving DecidableEq, Repr

/-- `RelationalOperator` from `token/operators/relational.rs`. -/
inductive RelationalOperator where
  | LessThan | GreaterThan | LessThanOrEqual | GreaterThanOrEqual | Equal | NotEqual
deriving DecidableEq, Repr

/-- `LogicalOperator` from `token/operators/logical.rs`. -/
inductive LogicalOperator where
  | And | Or | Not
deriving DecidableEq, Repr

/-- `BitwiseOperator` from `token/operators/bitwise.rs`. -/
inductive BitwiseOperator where
  | And | Or | Xor | Not | LeftShift | RightShift
deriving DecidableEq, Repr

/-- `TokenKind` from `token/tokenkind.rs` (the flat enum used by
`lexer.rs`).  `Identifier` carries the bytes of the identifier string;
`StringLiteral` carries the code points of the decoded `char`s pushed by
the scanner; `CharacterLiteral` carries the decoded code point;
`FloatLiteral` abstracts the `f64` payload by the literal text it was
parsed from (IEEE rounding is not modelled; no claim depends on the
floating-point value). -/
inductive TokenKind where
  | Func | Return | If | Else | Elif | Loop | Switch | Case
  | Var | Const | Final
  | Int8 | Int16 | Int32 | Int64
  | Unsigned8 | Unsigned16 | Unsigned32 | Unsigned64
  | Float | Double
  | String | Character | Struct | Void
  | Identifier (s : List Nat)
  | StringLiteral (s : List Nat)
  | CharacterLiteral (c : Nat)
  | IntLiteral (v : Int)
  | UnsignedIntLiteral (v : Nat)
  | FloatLiteral (text : List Nat)
  | LeftParen | RightParen | LeftBrace | RightBrace | LeftBracket | RightBracket
  | Colon | Semicolon | Comma | Dot
  | ScopingOperator
  | ArithmeticOperator (op : ArithmeticOperator)
  | RelationalOperator (op : RelationalOperator)
  | LogicalOperator (op : LogicalOperator)
  | AssignmentOperator (op : AssignmentOperator)
  | BitwiseOperator (op : BitwiseOperator)
  | PointerAccessOperator
  | QuestionMark
  | Eof
deriving DecidableEq, Repr

/-- `Token` from `token.rs`: kind, span, and the lexeme string (as the
bytes of the Rust `String`). -/
structure Token where
  kind : TokenKind
  span : Span
  lexeme : List Nat
deriving DecidableEq, Repr

/-- `Token::is_eof` from `token.rs`. -/
def Token.is_eof (t : Token) : Bool :=
  t.kind = TokenKind.Eof

/-- Bytes of an ASCII Lean string literal, used to transcribe the Rust
string literals of the source (`"func"`, `"::"`, ...). -/
def strBytes (s : String) : List Nat :=
  s.data.map Char.toNat

namespace CharStream

/-- `CharStream::new`: fails with `EmptyInput` on an empty buffer, else
starts at index 0, line 1, column 1. -/
def new (input : List Nat) : Except LexError CharStream :=
  if input.isEmpty then .error .EmptyInput
  else .ok { input := input, index := 0, line := 1, column := 1 }

/-- `CharStream::from_bytes`: copies the slice and delegates to `new`. -/
def from_bytes (bytes : List Nat) : Except LexError CharStream :=
  new bytes

/-- `CharStream::is_eof`. -/
def is_eof (cs : CharStream) : Bool :=
  cs.input.length ≤ cs.index

/-- `CharStream::peek_n`.  The Rust `checked_add` cannot overflow in the
`Nat` model; `get` returns `None` past the end of the buffer. -/
def peek_n (cs : CharStream) (n : Nat) : Option Nat :=
  cs.input[cs.index + n]?

/-- `CharStream::peek`. -/
def peek (cs : CharStream) : Option Nat :=
  cs.peek_n 0

/-- `CharStream::advance`: consume and return the current byte, updating
line/column (newline resets column to 1 and bumps line; any other byte
bumps the column).  The mutated `self` is returned alongside. -/
def advance (cs : CharStream) : Option Nat × CharStream :=
  match cs.input[cs.index]? with
  | none => (none, cs)
  | some b =>
      (some b,
        { cs with
          index := cs.index + 1
          line := if b = 10 then cs.line + 1 else cs.line
          column := if b = 10 then 1 else cs.column + 1 })

/-- The state after `advance`, discarding the returned byte. -/
def bump (cs : CharStream) : CharStream :=
  (cs.advance).2

/-- Modelled from the spec: `CharStream::advance_n` is called by
`Lexer::next_token` and `Lexer::skip_trivia` but is absent from
`src/charstream.rs`; spec §4.1 defines it as consuming up to `n` bytes,
applying `advance` semantics per byte. -/
def advance_n (cs : CharStream) : Nat → CharStream
  | 0 => cs
  | n + 1 => (cs.bump).advance_n n

/-- `CharStream::match_byte`: consume one byte iff it equals `expected`. -/
def match_byte (cs : CharStream) (expected : Nat) : Bool × CharStream :=
  if cs.peek = some expected then (true, cs.bump) else (false, cs)

/-- `CharStream::slice`: `&input[start..end]` (in-bounds at every call
site of the lexer). -/
def slice (cs : CharStream) (s e : Nat) : List Nat :=
  (cs.input.drop s).take (e - s)

/-- The cursor invariant of spec §3: the index never passes the end of the
buffer and line/column stay 1-based. -/
def WF (cs : CharStream) : Prop :=
  cs.index ≤ cs.input.length ∧ 1 ≤ cs.line ∧ 1 ≤ cs.column

/-- Relation between a stream state and a later state of the same scan:
the buffer is untouched, the index moves forward, and it stays in bounds
whenever it started in bounds.  Every consuming operation of the lexer
takes a state to an `Advances`-related state. -/
def Advances (cs cs' : CharStream) : Prop :=
  cs'.input = cs.input ∧ cs.index ≤ cs'.index ∧
    (cs.index ≤ cs.input.length → cs'.index ≤ cs.input.length)

/-- Fuel-indexed body of the loop shared by `consume_while` and
`skip_while`: consume bytes while the predicate holds.  The wrappers pass
more fuel than the loop can consume, so the fuel bound is never hit. -/
def skipWhileF (p : Nat → Bool) : Nat → CharStream → CharStream
  | 0, cs => cs
  | fuel + 1, cs =>
      match cs.peek with
      | none => cs
      | some b => if p b then skipWhileF p fuel cs.bump else cs

/-- `CharStream::skip_while`. -/
def skip_while (p : Nat → Bool) (cs : CharStream) : CharStream :=
  skipWhileF p (cs.input.length - cs.index) cs

/-- `CharStream::consume_while`: greedily consume while the predicate
holds, returning the consumed span's offsets together with the final
state. -/
def consume_while (p : Nat → Bool) (cs : CharStream) : (Nat × Nat) × CharStream :=
  let cs' := skip_while p cs
  ((cs.index, cs'.index), cs')

/-- `CharStream::skip_whitespace`: space, tab, carriage return, newline. -/
def skip_whitespace (cs : CharStream) : CharStream :=
  skip_while (fun b => b = 32 || b = 9 || b = 13 || b = 10) cs

/-- `CharStream::current_position` as called by `lexer.rs`; its body is
`current_start_pos` in `charstream.rs`: the `(index, line, column)`
snapshot. -/
def current_position (cs : CharStream) : Nat × Nat × Nat :=
  (cs.index, cs.line, cs.column)

end CharStream

/-- Model of `String::from_utf8_lossy(bytes).to_string()` as the bytes of
the resulting Rust `String`: valid UTF-8 sequences are copied verbatim and
each maximal invalid subpart is replaced by U+FFFD (`EF BF BD`), following
Rust's substitution-of-maximal-subparts policy. -/
def utf8Lossy : List Nat → List Nat
  | [] => []
  | b :: rest =>
      if b < 128 then b :: utf8Lossy rest
      else if 194 ≤ b ∧ b ≤ 223 then
        match rest with
        | b2 :: rest2 =>
            if 128 ≤ b2 ∧ b2 ≤ 191 then b :: b2 :: utf8Lossy rest2
            else 239 :: 191 :: 189 :: utf8Lossy (b2 :: rest2)
        | [] => [239, 191, 189]
      else if 224 ≤ b ∧ b ≤ 239 then
        match rest with
        | b2 :: rest2 =>
            if (if b = 224 then 160 ≤ b2 ∧ b2 ≤ 191
                else if b = 237 then 128 ≤ b2 ∧ b2 ≤ 159
                else 128 ≤ b2 ∧ b2 ≤ 191) then
              match rest2 with
              | b3 :: rest3 =>
                  if 128 ≤ b3 ∧ b3 ≤ 191 then b :: b2 :: b3 :: utf8Lossy rest3
                  else 239 :: 191 :: 189 :: utf8Lossy (b3 :: rest3)
              | [] => [239, 191, 189]
            else 239 :: 191 :: 189 :: utf8Lossy (b2 :: rest2)
        | [] => [239, 191, 189]
      else if 240 ≤ b ∧ b ≤ 244 then
        match rest with
        | b2 :: rest2 =>
            if (if b = 240 then 144 ≤ b2 ∧ b2 ≤ 191
                else if b = 244 then 128 ≤ b2 ∧ b2 ≤ 143
                else 128 ≤ b2 ∧ b2 ≤ 191) then
              match rest2 with
              | b3 :: rest3 =>
                  if 128 ≤ b3 ∧ b3 ≤ 191 then
                    match rest3 with
                    | b4 :: rest4 =>
                        if 128 ≤ b4 ∧ b4 ≤ 191 then b :: b2 :: b3 :: b4 :: utf8Lossy rest4
                        else 239 :: 191 :: 189 :: utf8Lossy (b4 :: rest4)
                    | [] => [239, 191, 189]
                  else 239 :: 191 :: 189 :: utf8Lossy (b3 :: rest3)
              | [] => [239, 191, 189]
            else 239 :: 191 :: 189 :: utf8Lossy (b2 :: rest2)
        | [] => [239, 191, 189]
      else 239 :: 191 :: 189 :: utf8Lossy rest

/-- Value of a list of ASCII decimal digit bytes, `none` if the list is
empty or contains a non-digit byte. -/
def digitsToNat : List Nat → Option Nat
  | [] => none
  | l => l.foldlM (fun acc b => if 48 ≤ b ∧ b ≤ 57 then some (acc * 10 + (b - 48)) else none) 0

/-- Model of `str::parse::<i64>()` on the byte content of the string:
optional sign, one or more digits, result within the `i64` range. -/
def parseI64 (s : List Nat) : Option Int :=
  match s with
  | 43 :: rest => (digitsToNat rest).bind fun n =>
      if n ≤ 2 ^ 63 - 1 then some (Int.ofNat n) else none
  | 45 :: rest => (digitsToNat rest).bind fun n =>
      if n ≤ 2 ^ 63 then some (-(Int.ofNat n)) else none
  | _ => (digitsToNat s).bind fun n =>
      if n ≤ 2 ^ 63 - 1 then some (Int.ofNat n) else none

/-- Model of `str::parse::<f64>()` restricted to the shapes `lex_number`
can produce: one or more digits, optionally followed by a dot and one or
more digits.  Such a string always parses in Rust; the `f64` value is
abstracted by the literal text (see `TokenKind.FloatLiteral`). -/
def parseF64 (s : List Nat) : Option (List Nat) :=
  let isDigit : Nat → Bool := fun b => 48 ≤ b && b ≤ 57
  let intPart := s.takeWhile isDigit
  let rest := s.dropWhile isDigit
  if intPart.isEmpty then none
  else
    match rest with
    | [] => some s
    | 46 :: fracPart =>
        if fracPart.isEmpty || fracPart.any (fun b => !(isDigit b)) then none
        else some s
    | _ => none

/-- `TokenKind::keyword` from `token/tokenkind.rs`: the fixed keyword
table, applied to the bytes of the identifier string. -/
def TokenKind.keyword (s : List Nat) : Option TokenKind :=
  if s = strBytes "func" then some .Func
  else if s = strBytes "return" then some .Return
  else if s = strBytes "if" then some .If
  else if s = strBytes "else" then some .Else
  else if s = strBytes "elif" then some .Elif
  else if s = strBytes "loop" then some .Loop
  else if s = strBytes "switch" then some .Switch
  else if s = strBytes "case" then some .Case
  else if s = strBytes "var" then some .Var
  else if s = strBytes "const" then some .Const
  else if s = strBytes "final" then some .Final
  else if s = strBytes "int8" then some .Int8
  else if s = strBytes "int16" then some .Int16
  else if s = strBytes "int32" then some .Int32
  else if s = strBytes "int64" then some .Int64
  else if s = strBytes "unsigned8" then some .Unsigned8
  else if s = strBytes "unsigned16" then some .Unsigned16
  else if s = strBytes "unsigned32" then some .Unsigned32
  else if s = strBytes "unsigned64" then some .Unsigned64
  else if s = strBytes "float" then some .Float
  else if s = strBytes "double" then some .Double
  else if s = strBytes "string" then some .String
  else if s = strBytes "character" then some .Character
  else if s = strBytes "struct" then some .Struct
  else if s = strBytes "void" then some .Void
  else none

namespace Lexer

open CharStream

/-- ASCII decimal digit test, `b'0'..=b'9'`. -/
def isDigitByte (b : Nat) : Bool :=
  48 ≤ b && b ≤ 57

/-- `b'a'..=b'z' | b'A'..=b'Z' | b'_'`: bytes that start an identifier. -/
def isIdentStart (b : Nat) : Bool :=
  (97 ≤ b && b ≤ 122) || (65 ≤ b && b ≤ 90) || b = 95

/-- `b'a'..=b'z' | b'A'..=b'Z' | b'0'..=b'9' | b'_'`: the predicate of the
identifier `consume_while`. -/
def isIdentChar (b : Nat) : Bool :=
  isIdentStart b || isDigitByte b

/-- The `decode_escape!` macro of `lexer.rs`: consume the backslash, then
map `n t r 0 \` and the enclosing quote; any other byte (or end of input)
yields `InvalidEscape` carrying the sequence text and the literal's start
position.  Returns the decoded `char` code point and the stream state. -/
def decode_escape (quote startLine startCol : Nat) (cs : CharStream) :
    Except LexError Nat × CharStream :=
  let cs1 := cs.bump
  match cs1.peek with
  | some b =>
      if b = 110 then (.ok 10, cs1.bump)
      else if b = 116 then (.ok 9, cs1.bump)
      else if b = 114 then (.ok 13, cs1.bump)
      else if b = 48 then (.ok 0, cs1.bump)
      else if b = 92 then (.ok 92, cs1.bump)
      else if b = quote then (.ok b, cs1.bump)
      else (.error (.InvalidEscape [92, b] startLine startCol), cs1)
  | none => (.error (.InvalidEscape (strBytes "\\(EOF)") startLine startCol), cs1)

/-- The `single_char_token!` macro of `lexer.rs`: advance one byte, then
build the token from the captured start position and the current
position. -/
def single_char_token (cs : CharStream) (kind : TokenKind) (lexeme : List Nat) :
    Except LexError Token × CharStream :=
  let cs' := cs.bump
  (.ok { kind := kind
         span := { start := cs.index, endPos := cs'.index
                   line_start := cs.line, column_start := cs.column
                   line_end := cs'.line, column_end := cs'.column }
         lexeme := lexeme }, cs')

/-- The repeated two-byte operator blocks of `next_token`: `advance_n(2)`
then build the token from the captured start and current positions. -/
def two_char_token (cs : CharStream) (kind : TokenKind) (lexeme : List Nat) :
    Except LexError Token × CharStream :=
  let cs' := cs.advance_n 2
  (.ok { kind := kind
         span := { start := cs.index, endPos := cs'.index
                   line_start := cs.line, column_start := cs.column
                   line_end := cs'.line, column_end := cs'.column }
         lexeme := lexeme }, cs')

/-- Fuel-indexed body of the block-comment loop of `skip_trivia`: skip
until the first `*/` (consuming it) or end of input. -/
def skipBlockF : Nat → CharStream → CharStream
  | 0, cs => cs
  | fuel + 1, cs =>
      match cs.peek with
      | none => cs
      | some b =>
          if b = 42 ∧ cs.peek_n 1 = some 47 then cs.advance_n 2
          else skipBlockF fuel cs.bump

/-- The line-comment loop of `skip_trivia`: skip until a newline (left
unconsumed) or end of input. -/
def skipLineComment (cs : CharStream) : CharStream :=
  skip_while (fun b => !(b = 10)) cs

/-- Fuel-indexed body of the `skip_trivia` loop of `lexer.rs`: whitespace,
`//` line comments, non-nesting `/* ... */` block comments. -/
def skipTriviaF : Nat → CharStream → CharStream
  | 0, cs => cs
  | fuel + 1, cs =>
      match cs.peek with
      | none => cs
      | some b =>
          if b = 32 ∨ b = 9 ∨ b = 13 ∨ b = 10 then skipTriviaF fuel cs.bump
          else if b = 47 then
            if cs.peek_n 1 = some 47 then
              skipTriviaF fuel (skipLineComment (cs.advance_n 2))
            else if cs.peek_n 1 = some 42 then
              skipTriviaF fuel (skipBlockF ((cs.advance_n 2).input.length - (cs.advance_n 2).index) (cs.advance_n 2))
            else cs
          else cs

/-- `Lexer::skip_trivia` from `lexer.rs`. -/
def skip_trivia (cs : CharStream) : CharStream :=
  skipTriviaF (cs.input.length - cs.index + 1) cs

/-- `Lexer::lex_identifier_or_keyword` from `lexer.rs`: consume identifier
characters, look the text up in the keyword table, fall back to
`Identifier`. -/
def lex_identifier_or_keyword (cs : CharStream) : Except LexError Token × CharStream :=
  let r := consume_while isIdentChar cs
  let lexStart := r.1.1
  let lexEnd := r.1.2
  let cs' := r.2
  let lexeme := utf8Lossy (cs'.slice lexStart lexEnd)
  let kind := (TokenKind.keyword lexeme).getD (TokenKind.Identifier lexeme)
  (.ok { kind := kind
         span := { start := cs.index, endPos := cs'.index
                   line_start := cs.line, column_start := cs.column
                   line_end := cs'.line, column_end := cs'.column }
         lexeme := lexeme }, cs')

/-- `Lexer::lex_number` from `lexer.rs` (the reachable revision: decimal
integers and floats only; the `.` is consumed only when the byte after it
is a digit; there is no `u`-suffix handling here). -/
def lex_number (cs : CharStream) : Except LexError Token × CharStream :=
  let startLine := cs.line
  let startCol := cs.column
  let r := consume_while isDigitByte cs
  let lexStart := r.1.1
  let cs1 := r.2
  let fr : Bool × CharStream :=
    if cs1.peek = some 46 then
      if (cs1.peek_n 1).any isDigitByte then
        let cs2 := cs1.bump
        (true, (consume_while isDigitByte cs2).2)
      else (false, cs1)
    else (false, cs1)
  let is_float := fr.1
  let cs4 := fr.2
  let lexeme := utf8Lossy (cs4.slice lexStart cs4.index)
  let kindE : Except LexError TokenKind :=
    if is_float then
      match parseF64 lexeme with
      | some f => .ok (.FloatLiteral f)
      | none => .error (.InvalidNumber lexeme startLine startCol)
    else
      match parseI64 lexeme with
      | some v => .ok (.IntLiteral v)
      | none => .error (.InvalidNumber lexeme startLine startCol)
  match kindE with
  | .error e => (.error e, cs4)
  | .ok kind =>
      (.ok { kind := kind
             span := { start := cs.index, endPos := cs4.index
                       line_start := startLine, column_start := startCol
                       line_end := cs4.line, column_end := cs4.column }
             lexeme := lexeme }, cs4)

/-- `Lexer::lex_character_literal` from `lexer.rs`. -/
def lex_character_literal (cs : CharStream) : Except LexError Token × CharStream :=
  let startIdx := cs.index
  let startLine := cs.line
  let startCol := cs.column
  let cs1 := cs.bump
  let chR : Except LexError Nat × CharStream :=
    match cs1.peek with
    | none => (.error (.UnterminatedString startLine startCol), cs1)
    | some b =>
        if b = 92 then decode_escape 39 startLine startCol cs1
        else (.ok b, cs1.bump)
  match chR with
  | (.error e, cs2) => (.error e, cs2)
  | (.ok ch, cs2) =>
      let mb := cs2.match_byte 39
      if mb.1 then
        let cs3 := mb.2
        let lexeme := utf8Lossy (cs3.slice startIdx cs3.index)
        (.ok { kind := .CharacterLiteral ch
               span := { start := startIdx, endPos := cs3.index
                         line_start := startLine, column_start := startCol
                         line_end := cs3.line, column_end := cs3.column }
               lexeme := lexeme }, cs3)
      else (.error (.UnterminatedString startLine startCol), mb.2)

/-- Fuel-indexed body of the `lex_string_literal` loop: accumulate decoded
code points until the closing quote; end of input (and, unreachably, fuel
exhaustion) yields `UnterminatedString`. -/
def stringLoopF (startLine startCol : Nat) :
    Nat → List Nat → CharStream → Except LexError (List Nat) × CharStream
  | 0, _, cs => (.error (.UnterminatedString startLine startCol), cs)
  | fuel + 1, acc, cs =>
      match cs.peek with
      | none => (.error (.UnterminatedString startLine startCol), cs)
      | some b =>
          if b = 34 then (.ok acc, cs.bump)
          else if b = 92 then
            match decode_escape 34 startLine startCol cs with
            | (.ok ch, cs2) => stringLoopF startLine startCol fuel (acc ++ [ch]) cs2
            | (.error e, cs2) => (.error e, cs2)
          else stringLoopF startLine startCol fuel (acc ++ [b]) cs.bump

/-- `Lexer::lex_string_literal` from `lexer.rs`. -/
def lex_string_literal (cs : CharStream) : Except LexError Token × CharStream :=
  let startIdx := cs.index
  let startLine := cs.line
  let startCol := cs.column
  let cs1 := cs.bump
  match stringLoopF startLine startCol (cs1.input.length - cs1.index + 1) [] cs1 with
  | (.error e, cs2) => (.error e, cs2)
  | (.ok decoded, cs2) =>
      let lexeme := utf8Lossy (cs2.slice startIdx cs2.index)
      (.ok { kind := .StringLiteral decoded
             span := { start := startIdx, endPos := cs2.index
                       line_start := startLine, column_start := startCol
                       line_end := cs2.line, column_end := cs2.column }
             lexeme := lexeme }, cs2)

/-- The dispatch of `Lexer::next_token` on the first non-trivia byte,
mirroring the `match byte` of `lexer.rs` arm by arm (the Rust `match` arms
are mutually exclusive, so the ordered `if` chain is equivalent).  The
final arm returns `UnexpectedCharacter` without consuming anything. -/
def dispatch (cs : CharStream) : Except LexError Token × CharStream :=
  match cs.peek with
  | none =>
      (.ok { kind := .Eof
             span := { start := cs.index, endPos := cs.index
                       line_start := cs.line, column_start := cs.column
                       line_end := cs.line, column_end := cs.column }
             lexeme := [] }, cs)
  | some b =>
      if b = 39 then lex_character_literal cs
      else if b = 34 then lex_string_literal cs
      else if isIdentStart b then lex_identifier_or_keyword cs
      else if isDigitByte b then lex_number cs
      else if b = 40 then single_char_token cs .LeftParen (strBytes "(")
      else if b = 41 then single_char_token cs .RightParen (strBytes ")")
      else if b = 123 then single_char_token cs .LeftBrace (strBytes "\x7b")
      else if b = 125 then single_char_token cs .RightBrace (strBytes "\x7d")
      else if b = 91 then single_char_token cs .LeftBracket (strBytes "[")
      else if b = 93 then single_char_token cs .RightBracket (strBytes "]")
      else if b = 58 then
        if cs.peek_n 1 = some 58 then two_char_token cs .ScopingOperator (strBytes "::")
        else single_char_token cs .Colon (strBytes ":")
      else if b = 59 then single_char_token cs .Semicolon (strBytes ";")
      else if b = 44 then single_char_token cs .Comma (strBytes ",")
      else if b = 46 then single_char_token cs .Dot (strBytes ".")
      else if b = 61 then
        if cs.peek_n 1 = some 61 then
          two_char_token cs (.RelationalOperator .Equal) (strBytes "==")
        else single_char_token cs (.AssignmentOperator .Assign) (strBytes "=")
      else if b = 43 then
        if cs.peek_n 1 = some 61 then
          two_char_token cs (.AssignmentOperator .AddAssign) (strBytes "+=")
        else single_char_token cs (.ArithmeticOperator .Plus) (strBytes "+")
      else if b = 45 then
        if cs.peek_n 1 = some 61 then
          two_char_token cs (.AssignmentOperator .SubtractAssign) (strBytes "-=")
        else single_char_token cs (.ArithmeticOperator .Minus) (strBytes "-")
      else if b = 42 then
        if cs.peek_n 1 = some 61 then
          two_char_token cs (.AssignmentOperator .MultiplyAssign) (strBytes "*=")
        else if cs.peek_n 1 = some 42 then
          two_char_token cs (.ArithmeticOperator .Exponent) (strBytes "**")
        else single_char_token cs (.ArithmeticOperator .Asterisk) (strBytes "*")
      else if b = 47 then
        if cs.peek_n 1 = some 61 then
          two_char_token cs (.AssignmentOperator .DivideAssign) (strBytes "/=")
        else single_char_token cs (.ArithmeticOperator .Slash) (strBytes "/")
      else if b = 37 then
        if cs.peek_n 1 = some 61 then
          two_char_token cs (.AssignmentOperator .ModuloAssign) (strBytes "%=")
        else single_char_token cs (.ArithmeticOperator .Modulo) (strBytes "%")
      else if b = 60 then
        if cs.peek_n 1 = some 61 then
          two_char_token cs (.RelationalOperator .LessThanOrEqual) (strBytes "<=")
        else if cs.peek_n 1 = some 60 then
          two_char_token cs (.BitwiseOperator .LeftShift) (strBytes "<<")
        else single_char_token cs (.RelationalOperator .LessThan) (strBytes "<")
      else if b = 62 then
        if cs.peek_n 1 = some 61 then
          two_char_token cs (.RelationalOperator .GreaterThanOrEqual) (strBytes ">=")
        else if cs.peek_n 1 = some 62 then
          two_char_token cs (.BitwiseOperator .RightShift) (strBytes ">>")
        else single_char_token cs (.RelationalOperator .GreaterThan) (strBytes ">")
      else if b = 33 then
        if cs.peek_n 1 = some 61 then
          two_char_token cs (.RelationalOperator .NotEqual) (strBytes "!=")
        else single_char_token cs (.LogicalOperator .Not) (strBytes "!")
      else if b = 38 then
        if cs.peek_n 1 = some 38 then
          two_char_token cs (.LogicalOperator .And) (strBytes "&&")
        else single_char_token cs (.BitwiseOperator .And) (strBytes "&")
      else if b = 124 then
        if cs.peek_n 1 = some 124 then
          two_char_token cs (.LogicalOperator .Or) (strBytes "||")
        else single_char_token cs (.BitwiseOperator .Or) (strBytes "|")
      else if b = 94 then single_char_token cs (.BitwiseOperator .Xor) (strBytes "^")
      else if b = 126 then single_char_token cs (.BitwiseOperator .Not) (strBytes "~")
      else if b = 63 then single_char_token cs .QuestionMark (strBytes "?")
      else (.error (.UnexpectedCharacter b cs.line cs.column), cs)

/-- `Lexer::next_token` from `lexer.rs`: skip trivia, capture the start
position, emit a zero-width `Eof` at end of input, otherwise dispatch on
the next byte.  The pair also carries the final stream state (Rust's
mutated `self.stream`), including on error paths. -/
def next_token (cs : CharStream) : Except LexError Token × CharStream :=
  dispatch (skip_trivia cs)

/-- The set of bytes covered by a non-error arm of the `next_token`
dispatch; every other byte falls to the `UnexpectedCharacter` arm. -/
def recognizedByte (b : Nat) : Bool :=
  b = 39 || b = 34 || isIdentStart b || isDigitByte b ||
  b = 40 || b = 41 || b = 123 || b = 125 || b = 91 || b = 93 ||
  b = 58 || b = 59 || b = 44 || b = 46 ||
  b = 61 || b = 43 || b = 45 || b = 42 || b = 47 || b = 37 ||
  b = 60 || b = 62 || b = 33 || b = 38 || b = 124 ||
  b = 94 || b = 126 || b = 63

/-- A byte that `decode_escape` rejects after a backslash for the given
quote context: not `n`, `t`, `r`, `0`, `\`, nor the enclosing quote. -/
def invalidEscByte (quote b : Nat) : Prop :=
  b ≠ 110 ∧ b ≠ 116 ∧ b ≠ 114 ∧ b ≠ 48 ∧ b ≠ 92 ∧ b ≠ quote

/-- Fuel-indexed driver: call `next_token` until an `Eof` token (the
caller loop of the spec and of `tester/src/main.rs`, whose stop condition
is `Token::is_eof`).  Each returned token is paired with the trivia bytes
its call skipped; `none` on a lexer error or fuel exhaustion. -/
def lexTokensF : Nat → CharStream → Option (List (List Nat × Token))
  | 0, _ => none
  | fuel + 1, cs =>
      match next_token cs with
      | (.error _, _) => none
      | (.ok tok, cs') =>
          let trivia := cs.slice cs.index (skip_trivia cs).index
          if tok.kind = .Eof then some [(trivia, tok)]
          else
            match lexTokensF fuel cs' with
            | none => none
            | some rest => some ((trivia, tok) :: rest)

/-- Tokenize a whole buffer: build the stream with `CharStream::new` and
drive `next_token` to `Eof`.  The fuel `length + 2` exceeds the number of
calls (every non-`Eof` token consumes at least one byte). -/
def lexAll (input : List Nat) : Option (List (List Nat × Token)) :=
  match CharStream.new input with
  | .error _ => none
  | .ok cs => lexTokensF (input.length + 2) cs

/-- The token-kind sequence of a buffer, `none` on error. -/
def tokenKinds (input : List Nat) : Option (List TokenKind) :=
  (lexAll input).map (List.map (fun p => p.2.kind))

/-- Concatenation of all skipped trivia and returned lexemes, in call
order, `none` on error. -/
def roundTrip (input : List Nat) : Option (List Nat) :=
  (lexAll input).map (fun ps => (ps.map (fun p => p.1 ++ p.2.lexeme)).flatten)

/-- Decomposition contract of one successful `dispatch` step: the buffer
is untouched, the index moves forward within bounds, the token's lexeme is
the lossy decoding of exactly the consumed slice, an `Eof` token consumes
nothing and is only produced at end of input, and every other token
consumes at least one byte. -/
def DispatchOk (cs : CharStream) (r : Except LexError Token × CharStream) : Prop :=
  ∀ tok cs', r = (.ok tok, cs') →
    cs'.input = cs.input ∧ cs.index ≤ cs'.index ∧
      (cs.index ≤ cs.input.length → cs'.index ≤ cs.input.length) ∧
      tok.lexeme = utf8Lossy (cs.slice cs.index cs'.index) ∧
      (tok.kind = .Eof → cs' = cs ∧ cs.input.length ≤ cs.index) ∧
      (tok.kind ≠ .Eof → cs.index < cs'.index)

end Lexer

/-! ## Basic cursor lemmas -/

namespace CharStream

theorem peek_def (cs : CharStream) : cs.peek = cs.input[cs.index]? := by
  simp [peek, peek_n]

theorem peek_n_def (cs : CharStream) (n : Nat) :
    cs.peek_n n = cs.input[cs.index + n]? := rfl

theorem bump_input (cs : CharStream) : cs.bump.input = cs.input := by
  unfold bump advance
  cases h : cs.input[cs.index]? <;> simp

theorem bump_of_peek_none (cs : CharStream) (h : cs.peek = none) : cs.bump = cs := by
  rw [peek_def] at h
  unfold bump advance
  simp [h]

theorem bump_index_of_peek (cs : CharStream) (b : Nat) (h : cs.peek = some b) :
    cs.bump.index = cs.index + 1 := by
  rw [peek_def] at h
  unfold bump advance
  simp [h]

theorem index_le_bump (cs : CharStream) : cs.index ≤ cs.bump.index := by
  unfold bump advance
  cases h : cs.input[cs.index]? <;> simp

theorem advances_refl (cs : CharStream) : Advances cs cs :=
  ⟨rfl, le_refl _, fun h => h⟩

theorem advances_trans {a b c : CharStream} (h1 : Advances a b) (h2 : Advances b c) :
    Advances a c := by
  obtain ⟨i1, l1, b1⟩ := h1
  obtain ⟨i2, l2, b2⟩ := h2
  refine ⟨i2.trans i1, l1.trans l2, fun h => ?_⟩
  have := b2 (by rw [i1]; exact b1 h)
  rwa [i1] at this

theorem advances_bump (cs : CharStream) : Advances cs cs.bump := by
  refine ⟨bump_input cs, index_le_bump cs, fun h => ?_⟩
  unfold bump advance
  cases hg : cs.input[cs.index]? with
  | none => simpa using h
  | some b =>
      have : cs.index < cs.input.length := by
        have hlt : cs.index < cs.input.length := by
          by_contra hge
          rw [List.getElem?_eq_none (by omega)] at hg
          exact Option.noConfusion hg
        exact hlt
      simpa using this

theorem advances_advance_n (cs : CharStream) (n : Nat) : Advances cs (cs.advance_n n) := by
  induction n generalizing cs with
  | zero => exact advances_refl cs
  | succ n ih => exact advances_trans (advances_bump cs) (ih cs.bump)

theorem advances_skipWhileF (p : Nat → Bool) (fuel : Nat) :
    ∀ cs, Advances cs (skipWhileF p fuel cs) := by
  induction fuel with
  | zero => intro cs; exact advances_refl cs
  | succ fuel ih =>
      intro cs
      unfold skipWhileF
      cases h : cs.peek with
      | none => exact advances_refl cs
      | some b =>
          by_cases hp : p b
          · simpa [hp] using advances_trans (advances_bump cs) (ih cs.bump)
          · simpa [hp] using advances_refl cs

theorem advances_skip_while (p : Nat → Bool) (cs : CharStream) :
    Advances cs (skip_while p cs) :=
  advances_skipWhileF p _ cs

theorem advances_match_byte (cs : CharStream) (e : Nat) :
    Advances cs (cs.match_byte e).2 := by
  unfold match_byte
  by_cases h : cs.peek = some e
  · simpa [h] using advances_bump cs
  · simpa [h] using advances_refl cs

theorem wf_of_advances {cs cs' : CharStream} (ha : Advances cs cs')
    (hl : 1 ≤ cs'.line) (hc : 1 ≤ cs'.column) (hwf : WF cs) : WF cs' := by
  obtain ⟨hi, _, hb⟩ := ha
  exact ⟨by rw [hi]; exact hb hwf.1, hl, hc⟩

theorem bump_line_ge (cs : CharStream) (h : 1 ≤ cs.line) : 1 ≤ cs.bump.line := by
  unfold bump advance
  cases hg : cs.input[cs.index]? with
  | none => simpa using h
  | some b => by_cases hb : b = 10 <;> simp [hb] <;> omega

theorem bump_column_ge (cs : CharStream) (h : 1 ≤ cs.column) : 1 ≤ cs.bump.column := by
  unfold bump advance
  cases hg : cs.input[cs.index]? with
  | none => simpa using h
  | some b => by_cases hb : b = 10 <;> simp [hb] <;> omega

theorem wf_bump (cs : CharStream) (h : WF cs) : WF cs.bump :=
  wf_of_advances (advances_bump cs) (bump_line_ge cs h.2.1) (bump_column_ge cs h.2.2) h

theorem wf_advance_n (cs : CharStream) (n : Nat) (h : WF cs) : WF (cs.advance_n n) := by
  induction n generalizing cs with
  | zero => exact h
  | succ n ih => exact ih cs.bump (wf_bump cs h)

theorem wf_match_byte (cs : CharStream) (e : Nat) (h : WF cs) : WF (cs.match_byte e).2 := by
  unfold match_byte
  by_cases hp : cs.peek = some e
  · simpa [hp] using wf_bump cs h
  · simpa [hp] using h

theorem wf_skipWhileF (p : Nat → Bool) (fuel : Nat) :
    ∀ cs, WF cs → WF (skipWhileF p fuel cs) := by
  induction fuel with
  | zero => intro cs h; exact h
  | succ fuel ih =>
      intro cs h
      unfold skipWhileF
      cases hp : cs.peek with
      | none => exact h
      | some b =>
          by_cases hpb : p b
          · simpa [hpb] using ih cs.bump (wf_bump cs h)
          · simpa [hpb] using h

theorem wf_skip_while (p : Nat → Bool) (cs : CharStream) (h : WF cs) :
    WF (skip_while p cs) :=
  wf_skipWhileF p _ cs h

theorem wf_consume_while (p : Nat → Bool) (cs : CharStream) (h : WF cs) :
    WF (consume_while p cs).2 :=
  wf_skip_while p cs h

theorem wf_skip_whitespace (cs : CharStream) (h : WF cs) : WF (skip_whitespace cs) :=
  wf_skip_while _ cs h

/-! ## Slice lemmas -/

theorem slice_append (cs : CharStream) {s m e : Nat} (h1 : s ≤ m) (h2 : m ≤ e) :
    cs.slice s m ++ cs.slice m e = cs.slice s e := by
  unfold slice
  have hdrop : cs.input.drop m = (cs.input.drop s).drop (m - s) := by
    rw [List.drop_drop]
    congr 1
    omega
  rw [hdrop, ← List.take_add]
  congr 1
  omega

theorem slice_refl_empty (cs : CharStream) (s : Nat) : cs.slice s s = [] := by
  simp [slice]

theorem slice_full (cs : CharStream) : cs.slice 0 cs.input.length = cs.input := by
  simp [slice]

theorem slice_to_end (cs : CharStream) (s : Nat) :
    cs.slice s cs.input.length = cs.input.drop s := by
  unfold slice
  apply List.take_of_length_le
  simp

theorem mem_slice (cs : CharStream) {s e b : Nat} (h : b ∈ cs.slice s e) : b ∈ cs.input := by
  unfold slice at h
  exact List.drop_subset s cs.input (List.take_subset _ _ h)

theorem slice_singleton (cs : CharStream) {i b : Nat} (h : cs.input[i]? = some b) :
    cs.slice i (i + 1) = [b] := by
  have hlt : i < cs.input.length := by
    by_contra hge
    rw [List.getElem?_eq_none (by omega)] at h
    exact Option.noConfusion h
  unfold slice
  rw [List.drop_eq_getElem_cons hlt]
  simp only [Nat.add_sub_cancel_left, List.take_succ_cons, List.take_zero]
  have := List.getElem?_eq_getElem hlt
  rw [this] at h
  simpa using h

theorem slice_pair (cs : CharStream) {i b b2 : Nat} (h : cs.input[i]? = some b)
    (h2 : cs.input[i + 1]? = some b2) : cs.slice i (i + 2) = [b, b2] := by
  have : cs.slice i (i + 1) ++ cs.slice (i + 1) (i + 2) = cs.slice i (i + 2) :=
    slice_append cs (by omega) (by omega)
  rw [← this, slice_singleton cs h]
  have he : i + 2 = (i + 1) + 1 := by omega
  rw [he, slice_singleton cs h2]
  rfl

theorem peek_lt_length (cs : CharStream) {b : Nat} (h : cs.peek = some b) :
    cs.index < cs.input.length := by
  rw [peek_def] at h
  by_contra hge
  rw [List.getElem?_eq_none (by omega)] at h
  exact Option.noConfusion h

theorem peek_n_lt_length (cs : CharStream) {n b : Nat} (h : cs.peek_n n = some b) :
    cs.index + n < cs.input.length := by
  rw [peek_n_def] at h
  by_contra hge
  rw [List.getElem?_eq_none (by omega)] at h
  exact Option.noConfusion h

theorem peek_bump (cs : CharStream) {b : Nat} (h : cs.peek = some b) :
    cs.bump.peek = cs.peek_n 1 := by
  rw [peek_def, bump_input, bump_index_of_peek cs b h, peek_n_def]

theorem peek_n_bump (cs : CharStream) {b : Nat} (h : cs.peek = some b) (n : Nat) :
    cs.bump.peek_n n = cs.peek_n (n + 1) := by
  rw [peek_n_def, bump_input, bump_index_of_peek cs b h, peek_n_def]
  congr 1
  omega

theorem peek_of_peek_n_none {cs : CharStream} (h : cs.peek = none) (n : Nat) :
    cs.peek_n n = none := by
  rw [peek_def] at h
  rw [peek_n_def]
  have : cs.input.length ≤ cs.index := by
    by_contra hlt
    rw [List.getElem?_eq_getElem (by omega)] at h
    exact Option.noConfusion h
  rw [List.getElem?_eq_none (by omega)]

theorem advance_n_two_index (cs : CharStream) {b b2 : Nat} (h : cs.peek = some b)
    (h2 : cs.peek_n 1 = some b2) :
    (cs.advance_n 2).index = cs.index + 2 ∧ (cs.advance_n 2).input = cs.input := by
  have hb1 := bump_index_of_peek cs b h
  have hp2 : cs.bump.peek = some b2 := by rw [peek_bump cs h]; exact h2
  have hb2 := bump_index_of_peek cs.bump b2 hp2
  refine ⟨?_, ?_⟩
  · show cs.bump.bump.index = cs.index + 2
    omega
  · show cs.bump.bump.input = cs.input
    rw [bump_input, bump_input]

end CharStream

/-! ## UTF-8 lossy decoding -/

theorem utf8Lossy_ascii : ∀ l : List Nat, (∀ b ∈ l, b < 128) → utf8Lossy l = l := by
  intro l
  induction l with
  | nil => intro _; rfl
  | cons b rest ih =>
      intro h
      have hb : b < 128 := h b (by simp)
      unfold utf8Lossy
      rw [if_pos hb, ih (fun x hx => h x (by simp [hx]))]

/-! ## Keyword table facts -/

theorem keyword_ne_eof {s : List Nat} {k : TokenKind} (h : TokenKind.keyword s = some k) :
    k ≠ TokenKind.Eof := by
  unfold TokenKind.keyword at h
  by_cases h0 : s = strBytes "func"
  · rw [if_pos h0] at h
    injection h with h2; subst h2; intro hk; exact TokenKind.noConfusion hk
  rw [if_neg h0] at h
  by_cases h1 : s = strBytes "return"
  · rw [if_pos h1] at h
    injection h with h2; subst h2; intro hk; exact TokenKind.noConfusion hk
  rw [if_neg h1] at h
  by_cases h2 : s = strBytes "if"
  · rw [if_pos h2] at h
    injection h with h2; subst h2; intro hk; exact TokenKind.noConfusion hk
  rw [if_neg h2] at h
  by_cases h3 : s = strBytes "else"
  · rw [if_pos h3] at h
    injection h with h2; subst h2; intro hk; exact TokenKind.noConfusion hk
  rw [if_neg h3] at h
  by_cases h4 : s = strBytes "elif"
  · rw [if_pos h4] at h
    injection h with h2; subst h2; intro hk; exact TokenKind.noConfusion hk
  rw [if_neg h4] at h
  by_cases h5 : s = strBytes "loop"
  · rw [if_pos h5] at h
    injection h with h2; subst h2; intro hk; exact TokenKind.noConfusion hk
  rw [if_neg h5] at h
  by_cases h6 : s = strBytes "switch"
  · rw [if_pos h6] at h
    injection h with h2; subst h2; intro hk; exact TokenKind.noConfusion hk
  rw [if_neg h6] at h
  by_cases h7 : s = strBytes "case"
  · rw [if_pos h7] at h
    injection h with h2; subst h2; intro hk; exact TokenKind.noConfusion hk
  rw [if_neg h7] at h
  by_cases h8 : s = strBytes "var"
  · rw [if_pos h8] at h
    injection h with h2; subst h2; intro hk; exact TokenKind.noConfusion hk
  rw [if_neg h8] at h
  by_cases h9 : s = strBytes "const"
  · rw [if_pos h9] at h
    injection h with h2; subst h2; intro hk; exact TokenKind.noConfusion hk
  rw [if_neg h9] at h
  by_cases h10 : s = strBytes "final"
  · rw [if_pos h10] at h
    injection h with h2; subst h2; intro hk; exact TokenKind.noConfusion hk
  rw [if_neg h10] at h
  by_cases h11 : s = strBytes "int8"
  · rw [if_pos h11] at h
    injection h with h2; subst h2; intro hk; exact TokenKind.noConfusion hk
  rw [if_neg h11] at h
  by_cases h12 : s = strBytes "int16"
  · rw [if_pos h12] at h
    injection h with h2; subst h2; intro hk; exact TokenKind.noConfusion hk
  rw [if_neg h12] at h
  by_cases h13 : s = strBytes "int32"
  · rw [if_pos h13] at h
    injection h with h2; subst h2; intro hk; exact TokenKind.noConfusion hk
  rw [if_neg h13] at h
  by_cases h14 : s = strBytes "int64"
  · rw [if_pos h14] at h
    injection h with h2; subst h2; intro hk; exact TokenKind.noConfusion hk
  rw [if_neg h14] at h
  by_cases h15 : s = strBytes "unsigned8"
  · rw [if_pos h15] at h
    injection h with h2; subst h2; intro hk; exact TokenKind.noConfusion hk
  rw [if_neg h15] at h
  by_cases h16 : s = strBytes "unsigned16"
  · rw [if_pos h16] at h
    injection h with h2; subst h2; intro hk; exact TokenKind.noConfusion hk
  rw [if_neg h16] at h
  by_cases h17 : s = strBytes "unsigned32"
  · rw [if_pos h17] at h
    injection h with h2; subst h2; intro hk; exact TokenKind.noConfusion hk
  rw [if_neg h17] at h
  by_cases h18 : s = strBytes "unsigned64"
  · rw [if_pos h18] at h
    injection h with h2; subst h2; intro hk; exact TokenKind.noConfusion hk
  rw [if_neg h18] at h
  by_cases h19 : s = strBytes "float"
  · rw [if_pos h19] at h
    injection h with h2; subst h2; intro hk; exact TokenKind.noConfusion hk
  rw [if_neg h19] at h
  by_cases h20 : s = strBytes "double"
  · rw [if_pos h20] at h
    injection h with h2; subst h2; intro hk; exact TokenKind.noConfusion hk
  rw [if_neg h20] at h
  by_cases h21 : s = strBytes "string"
  · rw [if_pos h21] at h
    injection h with h2; subst h2; intro hk; exact TokenKind.noConfusion hk
  rw [if_neg h21] at h
  by_cases h22 : s = strBytes "character"
  · rw [if_pos h22] at h
    injection h with h2; subst h2; intro hk; exact TokenKind.noConfusion hk
  rw [if_neg h22] at h
  by_cases h23 : s = strBytes "struct"
  · rw [if_pos h23] at h
    injection h with h2; subst h2; intro hk; exact TokenKind.noConfusion hk
  rw [if_neg h23] at h
  by_cases h24 : s = strBytes "void"
  · rw [if_pos h24] at h
    injection h with h2; subst h2; intro hk; exact TokenKind.noConfusion hk
  rw [if_neg h24] at h
  exact Option.noConfusion h

/-! ## Lexer scanning steps advance the cursor -/

namespace Lexer

open CharStream

theorem advances_decode_escape (quote sl sc : Nat) (cs : CharStream) :
    Advances cs (decode_escape quote sl sc cs).2 := by
  unfold decode_escape
  have h1 := advances_bump cs
  have h2 := advances_trans h1 (advances_bump cs.bump)
  cases hp : cs.bump.peek with
  | none => simpa [hp] using h1
  | some b => simp only [hp]; split_ifs <;> first | exact h2 | exact h1

theorem advances_skipBlockF (fuel : Nat) :
    ∀ cs, Advances cs (skipBlockF fuel cs) := by
  induction fuel with
  | zero => intro cs; exact advances_refl cs
  | succ fuel ih =>
      intro cs
      unfold skipBlockF
      cases hp : cs.peek with
      | none => exact advances_refl cs
      | some b =>
          simp only
          split_ifs
          · exact advances_advance_n cs 2
          · exact advances_trans (advances_bump cs) (ih cs.bump)

theorem advances_skipLineComment (cs : CharStream) :
    Advances cs (skipLineComment cs) :=
  advances_skip_while _ cs

theorem advances_skipTriviaF (fuel : Nat) :
    ∀ cs, Advances cs (skipTriviaF fuel cs) := by
  induction fuel with
  | zero => intro cs; exact advances_refl cs
  | succ fuel ih =>
      intro cs
      unfold skipTriviaF
      cases hp : cs.peek with
      | none => exact advances_refl cs
      | some b =>
          simp only
          split_ifs
          · exact advances_trans (advances_bump cs) (ih cs.bump)
          · exact advances_trans (advances_advance_n cs 2)
              (advances_trans (advances_skipLineComment _) (ih _))
          · exact advances_trans (advances_advance_n cs 2)
              (advances_trans (advances_skipBlockF _ _) (ih _))
          · exact advances_refl cs
          · exact advances_refl cs

theorem advances_skip_trivia (cs : CharStream) : Advances cs (skip_trivia cs) :=
  advances_skipTriviaF _ cs

theorem advances_stringLoopF (sl sc : Nat) (fuel : Nat) :
    ∀ acc cs, Advances cs (stringLoopF sl sc fuel acc cs).2 := by
  induction fuel with
  | zero => intro acc cs; exact advances_refl cs
  | succ fuel ih =>
      intro acc cs
      unfold stringLoopF
      cases hp : cs.peek with
      | none => exact advances_refl cs
      | some b =>
          simp only
          split_ifs
          · exact advances_bump cs
          · rcases hd : decode_escape 34 sl sc cs with ⟨r, cs2⟩
            have hadv : Advances cs cs2 := by
              have := advances_decode_escape 34 sl sc cs
              rwa [hd] at this
            cases r with
            | ok ch => simpa using advances_trans hadv (ih _ cs2)
            | error e => simpa using hadv
          · exact advances_trans (advances_bump cs) (ih _ cs.bump)

theorem slice_congr {cs cs' : CharStream} (h : cs'.input = cs.input) (s e : Nat) :
    cs'.slice s e = cs.slice s e := by
  unfold CharStream.slice
  rw [h]

theorem peek_none_len {cs : CharStream} (h : cs.peek = none) :
    cs.input.length ≤ cs.index := by
  rw [peek_def] at h
  by_contra hlt
  rw [List.getElem?_eq_getElem (by omega)] at h
  exact Option.noConfusion h

theorem skip_while_progress (p : Nat → Bool) {cs : CharStream} {b : Nat}
    (h : cs.peek = some b) (hp : p b = true) :
    cs.index < (skip_while p cs).index := by
  have hlt : cs.index < cs.input.length := peek_lt_length cs h
  obtain ⟨f, hf⟩ : ∃ f, cs.input.length - cs.index = f + 1 :=
    ⟨cs.input.length - cs.index - 1, by omega⟩
  unfold skip_while
  rw [hf]
  unfold skipWhileF
  rw [h]
  simp only [hp, if_true]
  have h1 := bump_index_of_peek cs b h
  have h2 := (advances_skipWhileF p f cs.bump).2.1
  omega

theorem dispatchOk_single {cs : CharStream} {b : Nat} {lx : List Nat} {kind : TokenKind}
    (h : cs.peek = some b) (hb : b < 128) (hlx : lx = [b]) (hk : kind ≠ TokenKind.Eof) :
    DispatchOk cs (single_char_token cs kind lx) := by
  intro tok cs' heq
  unfold single_char_token at heq
  simp only [Prod.mk.injEq] at heq
  obtain ⟨htok, hcs⟩ := heq
  injection htok with htok
  subst htok
  subst hcs
  have hidx := bump_index_of_peek cs b h
  refine ⟨bump_input cs, index_le_bump cs, (advances_bump cs).2.2, ?_, ?_, ?_⟩
  · show lx = utf8Lossy (cs.slice cs.index cs.bump.index)
    rw [hidx, slice_singleton cs (by rw [← peek_def]; exact h),
      utf8Lossy_ascii [b] (by intro x hx; simp at hx; omega), hlx]
  · intro hkind
    exact absurd hkind hk
  · intro _
    omega

theorem dispatchOk_two {cs : CharStream} {b b2 : Nat} {lx : List Nat} {kind : TokenKind}
    (h : cs.peek = some b) (h2 : cs.peek_n 1 = some b2) (hb : b < 128) (hb2 : b2 < 128)
    (hlx : lx = [b, b2]) (hk : kind ≠ TokenKind.Eof) :
    DispatchOk cs (two_char_token cs kind lx) := by
  intro tok cs' heq
  unfold two_char_token at heq
  simp only [Prod.mk.injEq] at heq
  obtain ⟨htok, hcs⟩ := heq
  injection htok with htok
  subst htok
  subst hcs
  obtain ⟨hidx, hinp⟩ := advance_n_two_index cs h h2
  have hlen : cs.index + 1 < cs.input.length := peek_n_lt_length cs h2
  refine ⟨hinp, by omega, fun _ => by omega, ?_, ?_, ?_⟩
  · show lx = utf8Lossy (cs.slice cs.index (cs.advance_n 2).index)
    rw [hidx, slice_pair cs (by rw [← peek_def]; exact h) (by rw [← peek_n_def]; exact h2),
      utf8Lossy_ascii [b, b2] (by intro x hx; simp at hx; omega), hlx]
  · intro hkind
    exact absurd hkind hk
  · intro _
    omega

theorem dispatchOk_ident {cs : CharStream} {b : Nat} (h : cs.peek = some b)
    (hb : isIdentChar b = true) :
    DispatchOk cs (lex_identifier_or_keyword cs) := by
  intro tok cs' heq
  unfold lex_identifier_or_keyword consume_while at heq
  simp only [Prod.mk.injEq] at heq
  obtain ⟨htok, hcs⟩ := heq
  injection htok with htok
  subst htok
  subst hcs
  have hadv := advances_skip_while isIdentChar cs
  refine ⟨hadv.1, hadv.2.1, hadv.2.2, ?_, ?_, ?_⟩
  · show utf8Lossy _ = utf8Lossy (cs.slice _ _)
    rw [slice_congr hadv.1]
  · intro hkind
    simp only at hkind
    cases hko : TokenKind.keyword
        (utf8Lossy ((skip_while isIdentChar cs).slice cs.index (skip_while isIdentChar cs).index)) with
    | none => rw [hko] at hkind; simp [Option.getD] at hkind
    | some k =>
        rw [hko] at hkind
        simp [Option.getD] at hkind
        exact absurd hkind (keyword_ne_eof hko)
  · intro _
    exact skip_while_progress isIdentChar h hb

theorem dispatchOk_conclusion {cs cs4 cs' : CharStream} {k : TokenKind} {sp : Span}
    {tok : Token} (hadv : Advances cs cs4) (hprog : cs.index < cs4.index)
    (hk : k ≠ TokenKind.Eof)
    (htok : tok = { kind := k, span := sp
                    lexeme := utf8Lossy (cs4.slice cs.index cs4.index) })
    (hcs : cs' = cs4) :
    cs'.input = cs.input ∧ cs.index ≤ cs'.index ∧
      (cs.index ≤ cs.input.length → cs'.index ≤ cs.input.length) ∧
      tok.lexeme = utf8Lossy (cs.slice cs.index cs'.index) ∧
      (tok.kind = TokenKind.Eof → cs' = cs ∧ cs.input.length ≤ cs.index) ∧
      (tok.kind ≠ TokenKind.Eof → cs.index < cs'.index) := by
  subst htok
  subst hcs
  refine ⟨hadv.1, hadv.2.1, hadv.2.2, ?_, ?_, ?_⟩
  · show utf8Lossy _ = utf8Lossy (cs.slice _ _)
    rw [slice_congr hadv.1]
  · intro hkind
    exact absurd hkind hk
  · intro _
    exact hprog

theorem dispatchOk_number {cs : CharStream} {b : Nat} (h : cs.peek = some b)
    (hb : isDigitByte b = true) :
    DispatchOk cs (lex_number cs) := by
  intro tok cs' heq
  have hmid : cs.index < (skip_while isDigitByte cs).index :=
    skip_while_progress isDigitByte h hb
  have hmida := advances_skip_while isDigitByte cs
  unfold lex_number consume_while at heq
  by_cases hc1 : (skip_while isDigitByte cs).peek = some 46
  · by_cases hc2 : ((skip_while isDigitByte cs).peek_n 1).any isDigitByte = true
    · simp only [hc1, hc2, if_true, eq_self_iff_true] at heq
      have hadv : Advances cs (skip_while isDigitByte (skip_while isDigitByte cs).bump) :=
        advances_trans hmida
          (advances_trans (advances_bump _) (advances_skip_while _ _))
      have hprog : cs.index < (skip_while isDigitByte (skip_while isDigitByte cs).bump).index := by
        have h1 := (advances_bump (skip_while isDigitByte cs)).2.1
        have h2 := (advances_skip_while isDigitByte (skip_while isDigitByte cs).bump).2.1
        omega
      split at heq
      · exact absurd heq (by simp)
      · rename_i kind hke
        simp only [Prod.mk.injEq] at heq
        obtain ⟨htok, hcs⟩ := heq
        injection htok with htok
        refine dispatchOk_conclusion hadv hprog ?_ htok.symm hcs.symm
        split at hke
        · injection hke with hke
          subst hke
          intro hkk
          exact TokenKind.noConfusion hkk
        · exact Except.noConfusion hke
    · simp only [hc1, hc2, if_false, eq_self_iff_true, if_true, Bool.false_eq_true] at heq
      split at heq
      · exact absurd heq (by simp)
      · rename_i kind hke
        simp only [Prod.mk.injEq] at heq
        obtain ⟨htok, hcs⟩ := heq
        injection htok with htok
        refine dispatchOk_conclusion hmida hmid ?_ htok.symm hcs.symm
        split at hke
        · injection hke with hke
          subst hke
          intro hkk
          exact TokenKind.noConfusion hkk
        · exact Except.noConfusion hke
  · simp only [if_neg hc1, Bool.false_eq_true, if_false] at heq
    split at heq
    · exact absurd heq (by simp)
    · rename_i kind hke
      simp only [Prod.mk.injEq] at heq
      obtain ⟨htok, hcs⟩ := heq
      injection htok with htok
      refine dispatchOk_conclusion hmida hmid ?_ htok.symm hcs.symm
      split at hke
      · injection hke with hke
        subst hke
        intro hkk
        exact TokenKind.noConfusion hkk
      · exact Except.noConfusion hke

theorem dispatchOk_char {cs : CharStream} (h : cs.peek = some 39) :
    DispatchOk cs (lex_character_literal cs) := by
  intro tok cs' heq
  have hb1 : cs.bump.index = cs.index + 1 := bump_index_of_peek cs 39 h
  unfold lex_character_literal at heq
  cases hp1 : cs.bump.peek with
  | none =>
      simp only [hp1] at heq
      exact absurd heq (by simp)
  | some c =>
      simp only [hp1] at heq
      by_cases hc92 : c = 92
      · simp only [hc92, if_true, eq_self_iff_true] at heq
        rcases hd : decode_escape 39 cs.line cs.column cs.bump with ⟨r2, cs2⟩
        rw [hd] at heq
        cases r2 with
        | error e => exact absurd heq (by simp)
        | ok ch =>
            simp only at heq
            have hadv2 : Advances cs cs2 := by
              have := advances_decode_escape 39 cs.line cs.column cs.bump
              rw [hd] at this
              exact advances_trans (advances_bump cs) this
            have hprog2 : cs.index < cs2.index := by
              have hde := advances_decode_escape 39 cs.line cs.column cs.bump
              rw [hd] at hde
              have h2 : cs.bump.index ≤ cs2.index := hde.2.1
              omega
            simp only [match_byte] at heq
            by_cases hq : cs2.peek = some 39
            · simp only [hq, if_true, eq_self_iff_true] at heq
              simp only [Prod.mk.injEq] at heq
              obtain ⟨htok, hcs⟩ := heq
              injection htok with htok
              refine dispatchOk_conclusion
                (advances_trans hadv2 (advances_bump cs2))
                (lt_of_lt_of_le hprog2 (index_le_bump cs2)) ?_ htok.symm hcs.symm
              intro hkk
              exact TokenKind.noConfusion hkk
            · simp only [hq, if_false] at heq
              exact absurd heq (by simp)
      · simp only [if_neg hc92] at heq
        simp only [match_byte] at heq
        have hadv2 : Advances cs cs.bump.bump :=
          advances_trans (advances_bump cs) (advances_bump cs.bump)
        have hprog2 : cs.index < cs.bump.bump.index := by
          have := (advances_bump cs.bump).2.1
          omega
        by_cases hq : cs.bump.bump.peek = some 39
        · simp only [hq, if_true, eq_self_iff_true] at heq
          simp only [Prod.mk.injEq] at heq
          obtain ⟨htok, hcs⟩ := heq
          injection htok with htok
          refine dispatchOk_conclusion
            (advances_trans hadv2 (advances_bump cs.bump.bump))
            (lt_of_lt_of_le hprog2 (index_le_bump cs.bump.bump)) ?_ htok.symm hcs.symm
          intro hkk
          exact TokenKind.noConfusion hkk
        · simp only [hq, if_false] at heq
          exact absurd heq (by simp)

theorem dispatchOk_string {cs : CharStream} (h : cs.peek = some 34) :
    DispatchOk cs (lex_string_literal cs) := by
  intro tok cs' heq
  have hb1 : cs.bump.index = cs.index + 1 := bump_index_of_peek cs 34 h
  simp only [lex_string_literal] at heq
  rcases hs : stringLoopF cs.line cs.column (cs.bump.input.length - cs.bump.index + 1) [] cs.bump
    with ⟨r, cs2⟩
  rw [hs] at heq
  cases r with
  | error e => exact absurd heq (by simp)
  | ok decoded =>
      simp only [Prod.mk.injEq] at heq
      obtain ⟨htok, hcs⟩ := heq
      injection htok with htok
      have hloop := advances_stringLoopF cs.line cs.column
        (cs.bump.input.length - cs.bump.index + 1) [] cs.bump
      rw [hs] at hloop
      refine dispatchOk_conclusion (advances_trans (advances_bump cs) hloop)
        (by have := hloop.2.1; omega) ?_ htok.symm hcs.symm
      intro hkk
      exact TokenKind.noConfusion hkk

theorem dispatch_ok (cs : CharStream) : DispatchOk cs (dispatch cs) := by
  intro tok cs' heq
  unfold dispatch at heq
  cases hp : cs.peek with
  | none =>
      simp only [hp] at heq
      simp only [Prod.mk.injEq] at heq
      obtain ⟨htok, hcs⟩ := heq
      injection htok with htok
      subst htok
      subst hcs
      refine ⟨rfl, le_refl _, fun hh => hh, ?_, ?_, ?_⟩
      · show ([] : List Nat) = utf8Lossy (cs.slice cs.index cs.index)
        rw [slice_refl_empty]
        rfl
      · intro _
        exact ⟨rfl, peek_none_len hp⟩
      · intro hne
        exact absurd rfl hne
  | some b =>
  simp only [hp] at heq
  by_cases hb0 : b = 39
  · rw [if_pos hb0] at heq
    subst hb0
    exact dispatchOk_char hp tok cs' heq
  rw [if_neg hb0] at heq
  by_cases hb1 : b = 34
  · rw [if_pos hb1] at heq
    subst hb1
    exact dispatchOk_string hp tok cs' heq
  rw [if_neg hb1] at heq
  by_cases hident : isIdentStart b = true
  · rw [if_pos hident] at heq
    exact dispatchOk_ident hp (by simp [isIdentChar, hident]) tok cs' heq
  rw [if_neg hident] at heq
  by_cases hdigit : isDigitByte b = true
  · rw [if_pos hdigit] at heq
    exact dispatchOk_number hp hdigit tok cs' heq
  rw [if_neg hdigit] at heq
  by_cases hb2 : b = 40
  · rw [if_pos hb2] at heq
    subst hb2
    exact dispatchOk_single hp (by omega) (by decide) (by decide) tok cs' heq
  rw [if_neg hb2] at heq
  by_cases hb3 : b = 41
  · rw [if_pos hb3] at heq
    subst hb3
    exact dispatchOk_single hp (by omega) (by decide) (by decide) tok cs' heq
  rw [if_neg hb3] at heq
  by_cases hb4 : b = 123
  · rw [if_pos hb4] at heq
    subst hb4
    exact dispatchOk_single hp (by omega) (by decide) (by decide) tok cs' heq
  rw [if_neg hb4] at heq
  by_cases hb5 : b = 125
  · rw [if_pos hb5] at heq
    subst hb5
    exact dispatchOk_single hp (by omega) (by decide) (by decide) tok cs' heq
  rw [if_neg hb5] at heq
  by_cases hb6 : b = 91
  · rw [if_pos hb6] at heq
    subst hb6
    exact dispatchOk_single hp (by omega) (by decide) (by decide) tok cs' heq
  rw [if_neg hb6] at heq
  by_cases hb7 : b = 93
  · rw [if_pos hb7] at heq
    subst hb7
    exact dispatchOk_single hp (by omega) (by decide) (by decide) tok cs' heq
  rw [if_neg hb7] at heq
  by_cases hb8 : b = 58
  · rw [if_pos hb8] at heq
    subst hb8
    by_cases hq : cs.peek_n 1 = some 58
    · rw [if_pos hq] at heq
      exact dispatchOk_two hp hq (by omega) (by omega) (by decide) (by decide) tok cs' heq
    · rw [if_neg hq] at heq
      exact dispatchOk_single hp (by omega) (by decide) (by decide) tok cs' heq
  rw [if_neg hb8] at heq
  by_cases hb9 : b = 59
  · rw [if_pos hb9] at heq
    subst hb9
    exact dispatchOk_single hp (by omega) (by decide) (by decide) tok cs' heq
  rw [if_neg hb9] at heq
  by_cases hb10 : b = 44
  · rw [if_pos hb10] at heq
    subst hb10
    exact dispatchOk_single hp (by omega) (by decide) (by decide) tok cs' heq
  rw [if_neg hb10] at heq
  by_cases hb11 : b = 46
  · rw [if_pos hb11] at heq
    subst hb11
    exact dispatchOk_single hp (by omega) (by decide) (by decide) tok cs' heq
  rw [if_neg hb11] at heq
  by_cases hb12 : b = 61
  · rw [if_pos hb12] at heq
    subst hb12
    by_cases hq : cs.peek_n 1 = some 61
    · rw [if_pos hq] at heq
      exact dispatchOk_two hp hq (by omega) (by omega) (by decide) (by decide) tok cs' heq
    · rw [if_neg hq] at heq
      exact dispatchOk_single hp (by omega) (by decide) (by decide) tok cs' heq
  rw [if_neg hb12] at heq
  by_cases hb13 : b = 43
  · rw [if_pos hb13] at heq
    subst hb13
    by_cases hq : cs.peek_n 1 = some 61
    · rw [if_pos hq] at heq
      exact dispatchOk_two hp hq (by omega) (by omega) (by decide) (by decide) tok cs' heq
    · rw [if_neg hq] at heq
      exact dispatchOk_single hp (by omega) (by decide) (by decide) tok cs' heq
  rw [if_neg hb13] at heq
  by_cases hb14 : b = 45
  · rw [if_pos hb14] at heq
    subst hb14
    by_cases hq : cs.peek_n 1 = some 61
    · rw [if_pos hq] at heq
      exact dispatchOk_two hp hq (by omega) (by omega) (by decide) (by decide) tok cs' heq
    · rw [if_neg hq] at heq
      exact dispatchOk_single hp (by omega) (by decide) (by decide) tok cs' heq
  rw [if_neg hb14] at heq
  by_cases hb15 : b = 42
  · rw [if_pos hb15] at heq
    subst hb15
    by_cases hq : cs.peek_n 1 = some 61
    · rw [if_pos hq] at heq
      exact dispatchOk_two hp hq (by omega) (by omega) (by decide) (by decide) tok cs' heq
    · rw [if_neg hq] at heq
      by_cases hq2 : cs.peek_n 1 = some 42
      · rw [if_pos hq2] at heq
        exact dispatchOk_two hp hq2 (by omega) (by omega) (by decide) (by decide) tok cs' heq
      · rw [if_neg hq2] at heq
        exact dispatchOk_single hp (by omega) (by decide) (by decide) tok cs' heq
  rw [if_neg hb15] at heq
  by_cases hb16 : b = 47
  · rw [if_pos hb16] at heq
    subst hb16
    by_cases hq : cs.peek_n 1 = some 61
    · rw [if_pos hq] at heq
      exact dispatchOk_two hp hq (by omega) (by omega) (by decide) (by decide) tok cs' heq
    · rw [if_neg hq] at heq
      exact dispatchOk_single hp (by omega) (by decide) (by decide) tok cs' heq
  rw [if_neg hb16] at heq
  by_cases hb17 : b = 37
  · rw [if_pos hb17] at heq
    subst hb17
    by_cases hq : cs.peek_n 1 = some 61
    · rw [if_pos hq] at heq
      exact dispatchOk_two hp hq (by omega) (by omega) (by decide) (by decide) tok cs' heq
    · rw [if_neg hq] at heq
      exact dispatchOk_single hp (by omega) (by decide) (by decide) tok cs' heq
  rw [if_neg hb17] at heq
  by_cases hb18 : b = 60
  · rw [if_pos hb18] at heq
    subst hb18
    by_cases hq : cs.peek_n 1 = some 61
    · rw [if_pos hq] at heq
      exact dispatchOk_two hp hq (by omega) (by omega) (by decide) (by decide) tok cs' heq
    · rw [if_neg hq] at heq
      by_cases hq2 : cs.peek_n 1 = some 60
      · rw [if_pos hq2] at heq
        exact dispatchOk_two hp hq2 (by omega) (by omega) (by decide) (by decide) tok cs' heq
      · rw [if_neg hq2] at heq
        exact dispatchOk_single hp (by omega) (by decide) (by decide) tok cs' heq
  rw [if_neg hb18] at heq
  by_cases hb19 : b = 62
  · rw [if_pos hb19] at heq
    subst hb19
    by_cases hq : cs.peek_n 1 = some 61
    · rw [if_pos hq] at heq
      exact dispatchOk_two hp hq (by omega) (by omega) (by decide) (by decide) tok cs' heq
    · rw [if_neg hq] at heq
      by_cases hq2 : cs.peek_n 1 = some 62
      · rw [if_pos hq2] at heq
        exact dispatchOk_two hp hq2 (by omega) (by omega) (by decide) (by decide) tok cs' heq
      · rw [if_neg hq2] at heq
        exact dispatchOk_single hp (by omega) (by decide) (by decide) tok cs' heq
  rw [if_neg hb19] at heq
  by_cases hb20 : b = 33
  · rw [if_pos hb20] at heq
    subst hb20
    by_cases hq : cs.peek_n 1 = some 61
    · rw [if_pos hq] at heq
      exact dispatchOk_two hp hq (by omega) (by omega) (by decide) (by decide) tok cs' heq
    · rw [if_neg hq] at heq
      exact dispatchOk_single hp (by omega) (by decide) (by decide) tok cs' heq
  rw [if_neg hb20] at heq
  by_cases hb21 : b = 38
  · rw [if_pos hb21] at heq
    subst hb21
    by_cases hq : cs.peek_n 1 = some 38
    · rw [if_pos hq] at heq
      exact dispatchOk_two hp hq (by omega) (by omega) (by decide) (by decide) tok cs' heq
    · rw [if_neg hq] at heq
      exact dispatchOk_single hp (by omega) (by decide) (by decide) tok cs' heq
  rw [if_neg hb21] at heq
  by_cases hb22 : b = 124
  · rw [if_pos hb22] at heq
    subst hb22
    by_cases hq : cs.peek_n 1 = some 124
    · rw [if_pos hq] at heq
      exact dispatchOk_two hp hq (by omega) (by omega) (by decide) (by decide) tok cs' heq
    · rw [if_neg hq] at heq
      exact dispatchOk_single hp (by omega) (by decide) (by decide) tok cs' heq
  rw [if_neg hb22] at heq
  by_cases hb23 : b = 94
  · rw [if_pos hb23] at heq
    subst hb23
    exact dispatchOk_single hp (by omega) (by decide) (by decide) tok cs' heq
  rw [if_neg hb23] at heq
  by_cases hb24 : b = 126
  · rw [if_pos hb24] at heq
    subst hb24
    exact dispatchOk_single hp (by omega) (by decide) (by decide) tok cs' heq
  rw [if_neg hb24] at heq
  by_cases hb25 : b = 63
  · rw [if_pos hb25] at heq
    subst hb25
    exact dispatchOk_single hp (by omega) (by decide) (by decide) tok cs' heq
  rw [if_neg hb25] at heq
  exact absurd heq (by simp)

theorem lexTokensF_roundtrip :
    ∀ (fuel : Nat) (cs : CharStream) (ps : List (List Nat × Token)),
      cs.index ≤ cs.input.length →
      (∀ x ∈ cs.input, x < 128) →
      lexTokensF fuel cs = some ps →
      (ps.map fun p => p.1 ++ p.2.lexeme).flatten = cs.slice cs.index cs.input.length := by
  intro fuel
  induction fuel with
  | zero =>
      intro cs ps _ _ hl
      exact absurd hl (by simp [lexTokensF])
  | succ fuel ih =>
      intro cs ps hinv hascii hl
      unfold lexTokensF at hl
      rcases hnt : next_token cs with ⟨r, cs1⟩
      rw [hnt] at hl
      unfold next_token at hnt
      cases r with
      | error e => simp at hl
      | ok tok =>
          simp only at hl
          have hst := advances_skip_trivia cs
          obtain ⟨hinp, hle, hbound, hlex, heof, hne⟩ := dispatch_ok (skip_trivia cs) tok cs1 hnt
          have hstb : (skip_trivia cs).index ≤ cs.input.length := hst.2.2 hinv
          have hstlen : (skip_trivia cs).input.length = cs.input.length := by rw [hst.1]
          by_cases hkind : tok.kind = TokenKind.Eof
          · rw [if_pos hkind] at hl
            injection hl with hl
            subst hl
            obtain ⟨hcs1, hend⟩ := heof hkind
            have hendeq : (skip_trivia cs).index = cs.input.length := by omega
            rw [hcs1] at hlex
            rw [slice_refl_empty] at hlex
            simp only [List.map_cons, List.map_nil, List.flatten_cons, List.flatten_nil,
              List.append_nil, hlex]
            show cs.slice cs.index (skip_trivia cs).index ++ ([] : List Nat) = _
            rw [List.append_nil, hendeq]
          · rw [if_neg hkind] at hl
            cases hrec : lexTokensF fuel cs1 with
            | none => rw [hrec] at hl; exact absurd hl (by simp)
            | some rest =>
                rw [hrec] at hl
                injection hl with hl
                subst hl
                have hinp1 : cs1.input = cs.input := by rw [hinp, hst.1]
                have hb1 : cs1.index ≤ cs1.input.length := by
                  rw [hinp1]
                  have := hbound (by omega)
                  omega
                have ha1 : ∀ x ∈ cs1.input, x < 128 := by
                  rw [hinp1]
                  exact hascii
                have hih := ih cs1 rest hb1 ha1 hrec
                have hlexeme : tok.lexeme = cs.slice (skip_trivia cs).index cs1.index := by
                  rw [hlex, slice_congr hst.1]
                  apply utf8Lossy_ascii
                  intro x hx
                  exact hascii x (mem_slice cs hx)
                have hc1b : cs1.index ≤ cs.input.length := by
                  have := hbound (by omega)
                  omega
                simp only [List.map_cons, List.flatten_cons, List.append_assoc]
                rw [hlexeme, hih, slice_congr hinp1, hinp1]
                rw [slice_append cs hle hc1b, slice_append cs hst.2.1 hstb]

end Lexer

/-! ## Claim theorems -/

/-- C1 counterexample: the byte `0xFF` inside a character literal is decoded
lossily, so the concatenated lexemes and trivia of `[39, 255, 39]` (`'\xFF'`)
are `[39, 239, 191, 189, 39]`, not the original buffer, even though lexing
reaches `Eof` without error. -/
theorem C1_counterexample :
    Lexer.roundTrip [39, 255, 39] = some [39, 239, 191, 189, 39] ∧
      Lexer.roundTrip [39, 255, 39] ≠ some [39, 255, 39] :=
  ⟨by rfl, by decide⟩

/-- C1 (amended): for every ASCII byte buffer (all bytes `< 128`) on which
repeated `next_token` calls reach `Eof` without error, the concatenation of
all returned lexemes together with all bytes skipped as trivia equals the
original input buffer exactly. -/
theorem C1_round_trip_ascii : ∀ (input : List Nat) (ps : List (List Nat × Token)),
    (∀ x ∈ input, x < 128) →
    Lexer.lexAll input = some ps →
    (ps.map fun p => p.1 ++ p.2.lexeme).flatten = input := by
  intro input ps hascii hl
  unfold Lexer.lexAll at hl
  unfold CharStream.new at hl
  by_cases hemp : input.isEmpty
  · rw [if_pos hemp] at hl
    exact absurd hl (by simp)
  · rw [if_neg hemp] at hl
    simp only at hl
    have h := Lexer.lexTokensF_roundtrip (input.length + 2)
      { input := input, index := 0, line := 1, column := 1 } ps (by simp) hascii hl
    simpa [CharStream.slice] using h

/-- C1 witness: concrete ASCII input round-trips exactly. -/
theorem C1_round_trip_ascii_witness :
    Lexer.roundTrip (strBytes "var x = 10;") = some (strBytes "var x = 10;") := by
  have h := C1_round_trip_ascii (strBytes "var x = 10;")
    ((Lexer.lexAll (strBytes "var x = 10;")).getD []) (by decide) (by rfl)
  unfold Lexer.roundTrip
  rw [show Lexer.lexAll (strBytes "var x = 10;") =
      some ((Lexer.lexAll (strBytes "var x = 10;")).getD []) from rfl]
  simp only [Option.map_some']
  exact congrArg some h

/-- C2 (code evaluation): the reachable `lex_number` of `lexer.rs` has no
`u`-suffix handling, so `2320u` lexes as `IntLiteral(2320)` followed by
`Identifier("u")`, and `3.14u` lexes as `FloatLiteral(3.14)` followed by
`Identifier("u")` with no error, contradicting the claimed
`UnsignedIntLiteral`/`InvalidNumber` behavior. -/
theorem C2_u_suffix_code_behavior :
    Lexer.tokenKinds (strBytes "2320u") =
      some [.IntLiteral 2320, .Identifier (strBytes "u"), .Eof] ∧
    Lexer.tokenKinds (strBytes "3.14u") =
      some [.FloatLiteral (strBytes "3.14"), .Identifier (strBytes "u"), .Eof] :=
  ⟨by rfl, by rfl⟩

/-- C3 (code evaluation): the `b'-'` arm of `next_token` in `lexer.rs` has
no `->` case, so `x::y->z` lexes `->` as `Minus` followed by `GreaterThan`,
never producing a `PointerAccess` token. -/
theorem C3_pointer_access_code_behavior :
    Lexer.tokenKinds (strBytes "x::y->z") =
      some [.Identifier (strBytes "x"), .ScopingOperator, .Identifier (strBytes "y"),
        .ArithmeticOperator .Minus, .RelationalOperator .GreaterThan,
        .Identifier (strBytes "z"), .Eof] := by rfl

/-- C4 counterexample: `u32` is not in the keyword table of
`TokenKind::keyword`, so the sixth token of the claimed program is
`Identifier("u32")`, not a keyword/type token. -/
theorem C4_counterexample :
    TokenKind.keyword (strBytes "u32") = none ∧
    (Lexer.tokenKinds (strBytes "func main(): u32 { return 2320u; }")).bind
        (fun l => l[5]?) = some (.Identifier (strBytes "u32")) :=
  ⟨by rfl, by rfl⟩

/-- C4 (amended): the exact token sequence the code produces for
`func main(): u32 { return 2320u; }`: `u32` is an identifier (the keyword
table only knows `int32`, `unsigned32`, ...), and `2320u` is
`IntLiteral(2320)` followed by `Identifier("u")`. -/
theorem C4_amended_sequence :
    Lexer.tokenKinds (strBytes "func main(): u32 { return 2320u; }") =
      some [.Func, .Identifier (strBytes "main"), .LeftParen, .RightParen, .Colon,
        .Identifier (strBytes "u32"), .LeftBrace, .Return, .IntLiteral 2320,
        .Identifier (strBytes "u"), .Semicolon, .RightBrace, .Eof] := by rfl

/-- C5: in `lex_number` the cursor moves past the digit run only when the
byte there is `.` and the byte after it is an ASCII digit (two-byte
lookahead); consequently `42.` lexes as `IntLiteral(42)` followed by the
`Dot` delimiter, never as a float. -/
theorem C5_dot_lookahead :
    (∀ (cs : CharStream) (r : Except LexError Token) (cs' : CharStream),
        Lexer.lex_number cs = (r, cs') →
        cs'.index ≠ (CharStream.skip_while Lexer.isDigitByte cs).index →
        (CharStream.skip_while Lexer.isDigitByte cs).peek = some 46 ∧
          ((CharStream.skip_while Lexer.isDigitByte cs).peek_n 1).any Lexer.isDigitByte = true) ∧
    Lexer.tokenKinds (strBytes "42.") = some [.IntLiteral 42, .Dot, .Eof] := by
  constructor
  · intro cs r cs' heq hne
    unfold Lexer.lex_number CharStream.consume_while at heq
    by_cases hc1 : (CharStream.skip_while Lexer.isDigitByte cs).peek = some 46
    · by_cases hc2 : ((CharStream.skip_while Lexer.isDigitByte cs).peek_n 1).any
          Lexer.isDigitByte = true
      · exact ⟨hc1, hc2⟩
      · exfalso
        simp only [hc1, hc2, if_false, eq_self_iff_true, if_true, Bool.false_eq_true] at heq
        split at heq <;>
          (simp only [Prod.mk.injEq] at heq; exact hne (heq.2 ▸ rfl))
    · exfalso
      simp only [if_neg hc1, Bool.false_eq_true, if_false] at heq
      split at heq <;>
        (simp only [Prod.mk.injEq] at heq; exact hne (heq.2 ▸ rfl))
  · rfl

/-- C5 witness: on `1.5` the scan does move past the digit run, and indeed
the digit run ends at a `.` followed by a digit. -/
theorem C5_dot_lookahead_witness :
    (CharStream.skip_while Lexer.isDigitByte
        { input := strBytes "1.5", index := 0, line := 1, column := 1 }).peek = some 46 ∧
      ((CharStream.skip_while Lexer.isDigitByte
        { input := strBytes "1.5", index := 0, line := 1, column := 1 }).peek_n 1).any
        Lexer.isDigitByte = true :=
  C5_dot_lookahead.1 { input := strBytes "1.5", index := 0, line := 1, column := 1 }
    (Lexer.lex_number { input := strBytes "1.5", index := 0, line := 1, column := 1 }).1
    (Lexer.lex_number { input := strBytes "1.5", index := 0, line := 1, column := 1 }).2
    rfl (by decide)

/-- C8: all mutating cursor operations preserve the invariant
`index <= len, line >= 1, column >= 1`; construction establishes it; and
`advance` on a newline bumps the line and resets the column to 1, while on
any other byte it leaves the line and bumps the column by exactly 1. -/
theorem C8_cursor_invariant :
    (∀ (input : List Nat) (cs : CharStream), CharStream.new input = .ok cs →
      CharStream.WF cs) ∧
    (∀ cs : CharStream, CharStream.WF cs → CharStream.WF cs.bump) ∧
    (∀ (cs : CharStream) (b : Nat) (cs2 : CharStream), cs.advance = (some b, cs2) →
      cs2.index = cs.index + 1 ∧
      (b = 10 → cs2.line = cs.line + 1 ∧ cs2.column = 1) ∧
      (b ≠ 10 → cs2.line = cs.line ∧ cs2.column = cs.column + 1)) ∧
    (∀ (cs : CharStream) (n : Nat), CharStream.WF cs → CharStream.WF (cs.advance_n n)) ∧
    (∀ (cs : CharStream) (e : Nat), CharStream.WF cs → CharStream.WF (cs.match_byte e).2) ∧
    (∀ (p : Nat → Bool) (cs : CharStream), CharStream.WF cs →
      CharStream.WF (CharStream.skip_while p cs)) ∧
    (∀ (p : Nat → Bool) (cs : CharStream), CharStream.WF cs →
      CharStream.WF (CharStream.consume_while p cs).2) ∧
    (∀ cs : CharStream, CharStream.WF cs → CharStream.WF (CharStream.skip_whitespace cs)) := by
  refine ⟨?_, CharStream.wf_bump, ?_, CharStream.wf_advance_n, CharStream.wf_match_byte,
    CharStream.wf_skip_while, CharStream.wf_consume_while, CharStream.wf_skip_whitespace⟩
  · intro input cs hnew
    unfold CharStream.new at hnew
    by_cases hemp : input.isEmpty
    · rw [if_pos hemp] at hnew
      exact absurd hnew (by simp)
    · rw [if_neg hemp] at hnew
      injection hnew with hnew
      subst hnew
      exact ⟨Nat.zero_le _, le_refl 1, le_refl 1⟩
  · intro cs b cs2 hadv
    unfold CharStream.advance at hadv
    cases hg : cs.input[cs.index]? with
    | none =>
        rw [hg] at hadv
        simp only [Prod.mk.injEq] at hadv
        exact absurd hadv.1 (by simp)
    | some c =>
        rw [hg] at hadv
        simp only [Prod.mk.injEq] at hadv
        obtain ⟨hb, hcs2⟩ := hadv
        injection hb with hb
        subst hb
        subst hcs2
        refine ⟨rfl, ?_, ?_⟩
        · intro h10
          simp [h10]
        · intro h10
          simp [h10]

/-- C8 witness: constructing from a concrete buffer establishes the
invariant, and one `advance` over a newline resets the column. -/
theorem C8_cursor_invariant_witness :
    CharStream.WF (CharStream.bump { input := [10, 97], index := 0, line := 1, column := 1 }) ∧
      ({ input := [10, 97], index := 0, line := 1, column := 1 } : CharStream).bump.line = 2 ∧
      ({ input := [10, 97], index := 0, line := 1, column := 1 } : CharStream).bump.column = 1 := by
  refine ⟨C8_cursor_invariant.2.1 _ ⟨by decide, by decide, by decide⟩, ?_⟩
  have h := C8_cursor_invariant.2.2.1 { input := [10, 97], index := 0, line := 1, column := 1 }
    10 ({ input := [10, 97], index := 0, line := 1, column := 1 } : CharStream).bump rfl
  have h10 := h.2.1 rfl
  exact h10

/-- C9: cursor construction fails with `EmptyInput` exactly on a
zero-length buffer, and otherwise starts at index 0, line 1, column 1;
`from_bytes` agrees with `new`. -/
theorem C9_construction : ∀ input : List Nat,
    (input.length = 0 → CharStream.new input = .error .EmptyInput ∧
      CharStream.from_bytes input = .error .EmptyInput) ∧
    (input.length ≠ 0 →
      CharStream.new input = .ok { input := input, index := 0, line := 1, column := 1 } ∧
      CharStream.from_bytes input =
        .ok { input := input, index := 0, line := 1, column := 1 }) := by
  intro input
  cases input with
  | nil => exact ⟨fun _ => ⟨rfl, rfl⟩, fun h => absurd rfl h⟩
  | cons a l =>
      refine ⟨fun h => absurd h (by simp), fun _ => ⟨?_, ?_⟩⟩
      · unfold CharStream.new
        rw [if_neg (by simp)]
      · unfold CharStream.from_bytes CharStream.new
        rw [if_neg (by simp)]

/-- C9 witness: concrete empty and non-empty buffers. -/
theorem C9_construction_witness :
    CharStream.new (strBytes "a") =
      .ok { input := strBytes "a", index := 0, line := 1, column := 1 } ∧
    CharStream.new [] = .error .EmptyInput :=
  ⟨((C9_construction (strBytes "a")).2 (by decide)).1, ((C9_construction []).1 rfl).1⟩

/-- C10: when the byte at the post-trivia position is not recognized by
any dispatch arm, `next_token` returns `UnexpectedCharacter` carrying that
byte and the post-trivia line/column, and the stream state is exactly the
post-trivia state: the offending byte is not consumed. -/
theorem C10_unexpected_character_atomic :
    ∀ (cs st : CharStream) (b : Nat), st = Lexer.skip_trivia cs →
      st.peek = some b → Lexer.recognizedByte b = false →
      Lexer.next_token cs =
        (.error (.UnexpectedCharacter b st.line st.column), st) := by
  intro cs st b hst hpeek hrec
  subst hst
  have n39 : ¬(b = 39) := by
    intro hh
    subst hh
    exact absurd hrec (by decide)
  have n34 : ¬(b = 34) := by
    intro hh
    subst hh
    exact absurd hrec (by decide)
  have hident : ¬(Lexer.isIdentStart b = true) := by
    intro hh
    have htrue : Lexer.recognizedByte b = true := by simp [Lexer.recognizedByte, hh]
    rw [hrec] at htrue
    exact Bool.noConfusion htrue
  have hdigit : ¬(Lexer.isDigitByte b = true) := by
    intro hh
    have htrue : Lexer.recognizedByte b = true := by simp [Lexer.recognizedByte, hh]
    rw [hrec] at htrue
    exact Bool.noConfusion htrue
  have n40 : ¬(b = 40) := by
    intro hh
    subst hh
    exact absurd hrec (by decide)
  have n41 : ¬(b = 41) := by
    intro hh
    subst hh
    exact absurd hrec (by decide)
  have n123 : ¬(b = 123) := by
    intro hh
    subst hh
    exact absurd hrec (by decide)
  have n125 : ¬(b = 125) := by
    intro hh
    subst hh
    exact absurd hrec (by decide)
  have n91 : ¬(b = 91) := by
    intro hh
    subst hh
    exact absurd hrec (by decide)
  have n93 : ¬(b = 93) := by
    intro hh
    subst hh
    exact absurd hrec (by decide)
  have n58 : ¬(b = 58) := by
    intro hh
    subst hh
    exact absurd hrec (by decide)
  have n59 : ¬(b = 59) := by
    intro hh
    subst hh
    exact absurd hrec (by decide)
  have n44 : ¬(b = 44) := by
    intro hh
    subst hh
    exact absurd hrec (by decide)
  have n46 : ¬(b = 46) := by
    intro hh
    subst hh
    exact absurd hrec (by decide)
  have n61 : ¬(b = 61) := by
    intro hh
    subst hh
    exact absurd hrec (by decide)
  have n43 : ¬(b = 43) := by
    intro hh
    subst hh
    exact absurd hrec (by decide)
  have n45 : ¬(b = 45) := by
    intro hh
    subst hh
    exact absurd hrec (by decide)
  have n42 : ¬(b = 42) := by
    intro hh
    subst hh
    exact absurd hrec (by decide)
  have n47 : ¬(b = 47) := by
    intro hh
    subst hh
    exact absurd hrec (by decide)
  have n37 : ¬(b = 37) := by
    intro hh
    subst hh
    exact absurd hrec (by decide)
  have n60 : ¬(b = 60) := by
    intro hh
    subst hh
    exact absurd hrec (by decide)
  have n62 : ¬(b = 62) := by
    intro hh
    subst hh
    exact absurd hrec (by decide)
  have n33 : ¬(b = 33) := by
    intro hh
    subst hh
    exact absurd hrec (by decide)
  have n38 : ¬(b = 38) := by
    intro hh
    subst hh
    exact absurd hrec (by decide)
  have n124 : ¬(b = 124) := by
    intro hh
    subst hh
    exact absurd hrec (by decide)
  have n94 : ¬(b = 94) := by
    intro hh
    subst hh
    exact absurd hrec (by decide)
  have n126 : ¬(b = 126) := by
    intro hh
    subst hh
    exact absurd hrec (by decide)
  have n63 : ¬(b = 63) := by
    intro hh
    subst hh
    exact absurd hrec (by decide)
  unfold Lexer.next_token Lexer.dispatch
  simp only [hpeek]
  rw [if_neg n39, if_neg n34, if_neg hident, if_neg hdigit, if_neg n40, if_neg n41, if_neg n123, if_neg n125, if_neg n91, if_neg n93, if_neg n58, if_neg n59, if_neg n44, if_neg n46, if_neg n61, if_neg n43, if_neg n45, if_neg n42, if_neg n47, if_neg n37, if_neg n60, if_neg n62, if_neg n33, if_neg n38, if_neg n124, if_neg n94, if_neg n126, if_neg n63]

/-- C10 witness: `@` (byte 64) at the start of the buffer. -/
theorem C10_unexpected_character_atomic_witness :
    Lexer.next_token { input := [64], index := 0, line := 1, column := 1 } =
      (.error (.UnexpectedCharacter 64 1 1),
        Lexer.skip_trivia { input := [64], index := 0, line := 1, column := 1 }) :=
  C10_unexpected_character_atomic { input := [64], index := 0, line := 1, column := 1 }
    (Lexer.skip_trivia { input := [64], index := 0, line := 1, column := 1 }) 64
    rfl (by rfl) (by decide)

theorem Lexer.skipBlockF_no_close :
    ∀ (fuel : Nat) (cs : CharStream),
      cs.input.length - cs.index ≤ fuel → cs.index ≤ cs.input.length →
      (∀ i, cs.index ≤ i → ¬(cs.input[i]? = some 42 ∧ cs.input[i + 1]? = some 47)) →
      (Lexer.skipBlockF fuel cs).index = cs.input.length ∧
        (Lexer.skipBlockF fuel cs).input = cs.input := by
  intro fuel
  induction fuel with
  | zero =>
      intro cs hf hb _
      refine ⟨?_, ?_⟩
      · unfold Lexer.skipBlockF
        omega
      · unfold Lexer.skipBlockF
        rfl
  | succ fuel ih =>
      intro cs hf hb hno
      unfold Lexer.skipBlockF
      cases hp : cs.peek with
      | none =>
          have := Lexer.peek_none_len hp
          refine ⟨?_, rfl⟩
          show cs.index = cs.input.length
          omega
      | some b =>
          simp only
          have hcond : ¬(b = 42 ∧ cs.peek_n 1 = some 47) := by
            rintro ⟨hb42, hp1⟩
            subst hb42
            refine hno cs.index (le_refl _) ⟨?_, ?_⟩
            · rw [← CharStream.peek_def]
              exact hp
            · rw [← CharStream.peek_n_def]
              exact hp1
          rw [if_neg hcond]
          have hbi := CharStream.bump_index_of_peek cs b hp
          have hbinp := CharStream.bump_input cs
          have hlt := CharStream.peek_lt_length cs hp
          have hres := ih cs.bump (by rw [hbinp]; omega) (by rw [hbinp]; omega)
            (by
              intro i hi
              rw [hbinp]
              exact hno i (by omega))
          rw [hbinp] at hres
          exact hres

theorem Lexer.skipTriviaF_of_peek_none {cs : CharStream} (h : cs.peek = none) :
    ∀ fuel, Lexer.skipTriviaF fuel cs = cs := by
  intro fuel
  cases fuel with
  | zero => rfl
  | succ fuel =>
      unfold Lexer.skipTriviaF
      rw [h]

/-- C6: when the remaining input is a block-comment opener with no closing
`*/` after it, `next_token` raises no error: trivia skipping consumes every
remaining byte and a zero-width `Eof` token at the end position is
returned. -/
theorem C6_unterminated_block_comment :
    ∀ cs : CharStream, cs.index ≤ cs.input.length →
      cs.peek = some 47 → cs.peek_n 1 = some 42 →
      (∀ i, cs.index + 2 ≤ i → ¬(cs.input[i]? = some 42 ∧ cs.input[i + 1]? = some 47)) →
      (Lexer.skip_trivia cs).index = cs.input.length ∧
        ∃ tok, Lexer.next_token cs = (.ok tok, Lexer.skip_trivia cs) ∧
          tok.kind = .Eof ∧ tok.lexeme = [] ∧
          tok.span.start = cs.input.length ∧ tok.span.endPos = cs.input.length := by
  intro cs hb h47 h42 hno
  have hlt := CharStream.peek_lt_length cs h47
  obtain ⟨hidx2, hinp2⟩ := CharStream.advance_n_two_index cs h47 h42
  have hlt2 := CharStream.peek_n_lt_length cs h42
  have hblock := Lexer.skipBlockF_no_close
    ((cs.advance_n 2).input.length - (cs.advance_n 2).index) (cs.advance_n 2)
    (le_refl _) (by rw [hinp2, hidx2]; omega)
    (by
      intro i hi
      rw [hinp2]
      refine hno i ?_
      rw [hidx2] at hi
      omega)
  have hbidx : (Lexer.skipBlockF ((cs.advance_n 2).input.length - (cs.advance_n 2).index)
      (cs.advance_n 2)).index = cs.input.length := by
    rw [hblock.1, hinp2]
  have hbinp : (Lexer.skipBlockF ((cs.advance_n 2).input.length - (cs.advance_n 2).index)
      (cs.advance_n 2)).input = cs.input := by
    rw [hblock.2, hinp2]
  have hbpeek : (Lexer.skipBlockF ((cs.advance_n 2).input.length - (cs.advance_n 2).index)
      (cs.advance_n 2)).peek = none := by
    rw [CharStream.peek_def, hbidx, hbinp]
    rw [List.getElem?_eq_none (le_refl _)]
  have hstv : Lexer.skip_trivia cs =
      Lexer.skipBlockF ((cs.advance_n 2).input.length - (cs.advance_n 2).index)
        (cs.advance_n 2) := by
    unfold Lexer.skip_trivia
    unfold Lexer.skipTriviaF
    rw [h47]
    simp only [h42]
    rw [if_neg (by omega)]
    simp only [eq_self_iff_true, if_true]
    rw [if_neg (by simp)]
    exact Lexer.skipTriviaF_of_peek_none hbpeek _
  have hendidx : (Lexer.skip_trivia cs).index = cs.input.length := by
    rw [hstv]
    exact hbidx
  have hpeek_end : (Lexer.skip_trivia cs).peek = none := by
    rw [hstv]
    exact hbpeek
  refine ⟨hendidx, ?_⟩
  refine ⟨{ kind := .Eof,
            span := { start := (Lexer.skip_trivia cs).index,
                      endPos := (Lexer.skip_trivia cs).index,
                      line_start := (Lexer.skip_trivia cs).line,
                      column_start := (Lexer.skip_trivia cs).column,
                      line_end := (Lexer.skip_trivia cs).line,
                      column_end := (Lexer.skip_trivia cs).column },
            lexeme := [] }, ?_, rfl, rfl, hendidx, hendidx⟩
  unfold Lexer.next_token Lexer.dispatch
  rw [hpeek_end]

/-- C6 witness: the 4-byte input `/*ab`. -/
theorem C6_unterminated_block_comment_witness :
    (Lexer.skip_trivia { input := [47, 42, 97, 98], index := 0, line := 1, column := 1 }).index = 4 ∧
      ∃ tok, Lexer.next_token { input := [47, 42, 97, 98], index := 0, line := 1, column := 1 } =
          (.ok tok, Lexer.skip_trivia { input := [47, 42, 97, 98], index := 0, line := 1, column := 1 }) ∧
        tok.kind = .Eof ∧ tok.lexeme = [] ∧ tok.span.start = 4 ∧ tok.span.endPos = 4 :=
  C6_unterminated_block_comment { input := [47, 42, 97, 98], index := 0, line := 1, column := 1 }
    (by decide) (by rfl) (by rfl)
    (by
      intro i hi hcon
      obtain ⟨h1, h2⟩ := hcon
      have hi2 : 2 ≤ i := by simpa using hi
      have hcases : i = 2 ∨ i = 3 ∨ 4 ≤ i := by omega
      rcases hcases with rfl | rfl | hge
      · exact absurd h1 (by decide)
      · exact absurd h1 (by decide)
      · rw [List.getElem?_eq_none
          (by simp only [List.length_cons, List.length_nil]; omega)] at h1
        exact Option.noConfusion h1)

theorem Lexer.decode_escape_invalid (quote sl sc : Nat) {cs : CharStream}
    (h92 : cs.peek = some 92) :
    (∀ b2, cs.peek_n 1 = some b2 → Lexer.invalidEscByte quote b2 →
      Lexer.decode_escape quote sl sc cs =
        (.error (.InvalidEscape [92, b2] sl sc), cs.bump)) ∧
    (cs.peek_n 1 = none →
      Lexer.decode_escape quote sl sc cs =
        (.error (.InvalidEscape (strBytes "\\(EOF)") sl sc), cs.bump)) := by
  have hpb := CharStream.peek_bump cs h92
  constructor
  · intro b2 hp2 hinv
    obtain ⟨n1, n2, n3, n4, n5, n6⟩ := hinv
    simp only [Lexer.decode_escape]
    rw [hpb, hp2]
    simp only
    rw [if_neg n1, if_neg n2, if_neg n3, if_neg n4, if_neg n5, if_neg n6]
  · intro hp2
    simp only [Lexer.decode_escape]
    rw [hpb, hp2]

theorem Lexer.stringLoopF_invalid (sl sc : Nat) :
    ∀ (fuel : Nat) (cs : CharStream) (acc : List Nat) (p : Nat),
      cs.input.length - cs.index < fuel →
      cs.index ≤ p →
      (∀ j, cs.index ≤ j → j < p → ∃ c, cs.input[j]? = some c ∧ c ≠ 34 ∧ c ≠ 92) →
      cs.input[p]? = some 92 →
      (∀ b2, cs.input[p + 1]? = some b2 → Lexer.invalidEscByte 34 b2 →
        (Lexer.stringLoopF sl sc fuel acc cs).1 = .error (.InvalidEscape [92, b2] sl sc)) ∧
      (cs.input[p + 1]? = none →
        (Lexer.stringLoopF sl sc fuel acc cs).1 =
          .error (.InvalidEscape (strBytes "\\(EOF)") sl sc)) := by
  intro fuel
  induction fuel with
  | zero =>
      intro cs acc p hf hp _ h92
      exfalso
      have hplen : p < cs.input.length := by
        by_contra hge
        rw [List.getElem?_eq_none (by omega)] at h92
        exact Option.noConfusion h92
      omega
  | succ fuel ih =>
      intro cs acc p hf hp hrange h92
      have hplen : p < cs.input.length := by
        by_contra hge
        rw [List.getElem?_eq_none (by omega)] at h92
        exact Option.noConfusion h92
      by_cases hpe : cs.index = p
      · have hpeek : cs.peek = some 92 := by
          rw [CharStream.peek_def, hpe]
          exact h92
        have hpn : cs.peek_n 1 = cs.input[p + 1]? := by
          rw [CharStream.peek_n_def, hpe]
        constructor
        · intro b2 hb2 hinv
          have hde := (Lexer.decode_escape_invalid 34 sl sc hpeek).1 b2
            (by rw [hpn]; exact hb2) hinv
          unfold Lexer.stringLoopF
          rw [hpeek]
          simp only
          rw [if_neg (by omega), if_pos trivial, hde]
        · intro hb2
          have hde := (Lexer.decode_escape_invalid 34 sl sc hpeek).2
            (by rw [hpn]; exact hb2)
          unfold Lexer.stringLoopF
          rw [hpeek]
          simp only
          rw [if_neg (by omega), if_pos trivial, hde]
      · obtain ⟨c, hc, hc34, hc92⟩ := hrange cs.index (le_refl _) (by omega)
        have hpeek : cs.peek = some c := by
          rw [CharStream.peek_def]
          exact hc
        have hbi := CharStream.bump_index_of_peek cs c hpeek
        have hbinp := CharStream.bump_input cs
        have hclen := CharStream.peek_lt_length cs hpeek
        have hrec := ih cs.bump (acc ++ [c]) p (by rw [hbinp]; omega) (by omega)
          (by
            intro j hj1 hj2
            rw [hbinp]
            exact hrange j (by omega) hj2)
          (by rw [hbinp]; exact h92)
        rw [hbinp] at hrec
        unfold Lexer.stringLoopF
        rw [hpeek]
        simp only
        rw [if_neg hc34, if_neg hc92]
        exact hrec

/-- C7: an unrecognized escape inside a string or character literal (a
backslash followed by a byte outside `n t r 0 \ <quote>`, or by end of
input) makes `next_token` return `InvalidEscape` whose sequence is the
two-character `\<byte>` text (or `\(EOF)`), positioned at the literal's
opening quote, not at the escape itself. -/
theorem C7_invalid_escape :
    (∀ (cs st : CharStream), st = Lexer.skip_trivia cs → st.peek = some 39 →
      st.peek_n 1 = some 92 →
      (∀ b, st.peek_n 2 = some b → Lexer.invalidEscByte 39 b →
        (Lexer.next_token cs).1 = .error (.InvalidEscape [92, b] st.line st.column)) ∧
      (st.peek_n 2 = none →
        (Lexer.next_token cs).1 =
          .error (.InvalidEscape (strBytes "\\(EOF)") st.line st.column))) ∧
    (∀ (cs st : CharStream) (p : Nat), st = Lexer.skip_trivia cs → st.peek = some 34 →
      st.index < p →
      (∀ j, st.index < j → j < p → ∃ c, st.input[j]? = some c ∧ c ≠ 34 ∧ c ≠ 92) →
      st.input[p]? = some 92 →
      (∀ b, st.input[p + 1]? = some b → Lexer.invalidEscByte 34 b →
        (Lexer.next_token cs).1 = .error (.InvalidEscape [92, b] st.line st.column)) ∧
      (st.input[p + 1]? = none →
        (Lexer.next_token cs).1 =
          .error (.InvalidEscape (strBytes "\\(EOF)") st.line st.column))) := by
  constructor
  · intro cs st hst h39 h92
    subst hst
    have hnt : Lexer.next_token cs = Lexer.lex_character_literal (Lexer.skip_trivia cs) := by
      unfold Lexer.next_token Lexer.dispatch
      rw [h39]
      simp only
      rw [if_pos trivial]
    have hcs1 : (Lexer.skip_trivia cs).bump.peek = some 92 := by
      rw [CharStream.peek_bump _ h39]
      exact h92
    have hpn2 : (Lexer.skip_trivia cs).bump.peek_n 1 = (Lexer.skip_trivia cs).peek_n 2 :=
      CharStream.peek_n_bump _ h39 1
    constructor
    · intro b hp2 hinv
      have hde := (Lexer.decode_escape_invalid 39
        (Lexer.skip_trivia cs).line (Lexer.skip_trivia cs).column hcs1).1 b
        (by rw [hpn2]; exact hp2) hinv
      rw [hnt]
      simp only [Lexer.lex_character_literal]
      rw [hcs1]
      simp only
      rw [if_pos trivial, hde]
    · intro hp2
      have hde := (Lexer.decode_escape_invalid 39
        (Lexer.skip_trivia cs).line (Lexer.skip_trivia cs).column hcs1).2
        (by rw [hpn2]; exact hp2)
      rw [hnt]
      simp only [Lexer.lex_character_literal]
      rw [hcs1]
      simp only
      rw [if_pos trivial, hde]
  · intro cs st p hst h34 hplt hrange h92
    subst hst
    have hnt : Lexer.next_token cs = Lexer.lex_string_literal (Lexer.skip_trivia cs) := by
      unfold Lexer.next_token Lexer.dispatch
      rw [h34]
      simp only
      rw [if_neg (by omega), if_pos trivial]
    have hbi := CharStream.bump_index_of_peek _ 34 h34
    have hbinp := CharStream.bump_input (Lexer.skip_trivia cs)
    have hloop := Lexer.stringLoopF_invalid (Lexer.skip_trivia cs).line
      (Lexer.skip_trivia cs).column
      ((Lexer.skip_trivia cs).bump.input.length - (Lexer.skip_trivia cs).bump.index + 1)
      (Lexer.skip_trivia cs).bump [] p (Nat.lt_succ_self _) (by omega)
      (by
        intro j hj1 hj2
        rw [hbinp]
        exact hrange j (by omega) hj2)
      (by rw [hbinp]; exact h92)
    constructor
    · intro b hb hinv
      have hres := hloop.1 b (by rw [hbinp]; exact hb) hinv
      rw [hnt]
      simp only [Lexer.lex_string_literal]
      rcases hs : Lexer.stringLoopF (Lexer.skip_trivia cs).line (Lexer.skip_trivia cs).column
        ((Lexer.skip_trivia cs).bump.input.length - (Lexer.skip_trivia cs).bump.index + 1)
        [] (Lexer.skip_trivia cs).bump with ⟨r, cs2⟩
      rw [hs] at hres
      simp only at hres
      subst hres
      rfl
    · intro hb
      have hres := hloop.2 (by rw [hbinp]; exact hb)
      rw [hnt]
      simp only [Lexer.lex_string_literal]
      rcases hs : Lexer.stringLoopF (Lexer.skip_trivia cs).line (Lexer.skip_trivia cs).column
        ((Lexer.skip_trivia cs).bump.input.length - (Lexer.skip_trivia cs).bump.index + 1)
        [] (Lexer.skip_trivia cs).bump with ⟨r, cs2⟩
      rw [hs] at hres
      simp only at hres
      subst hres
      rfl

/-- C7 witness: `"\q"` and `'\q'` both report `InvalidEscape` with
sequence `\q` at line 1, column 1 (the opening quote). -/
theorem C7_invalid_escape_witness :
    (Lexer.next_token { input := [34, 92, 113, 34], index := 0, line := 1, column := 1 }).1 =
        .error (.InvalidEscape [92, 113] 1 1) ∧
      (Lexer.next_token { input := [39, 92, 113, 39], index := 0, line := 1, column := 1 }).1 =
        .error (.InvalidEscape [92, 113] 1 1) := by
  constructor
  · exact (C7_invalid_escape.2 { input := [34, 92, 113, 34], index := 0, line := 1, column := 1 }
      (Lexer.skip_trivia { input := [34, 92, 113, 34], index := 0, line := 1, column := 1 }) 1
      rfl (by rfl) (by decide)
      (by
        intro j h1 h2
        have h0 : (Lexer.skip_trivia
            { input := [34, 92, 113, 34], index := 0, line := 1, column := 1 }).index = 0 := by rfl
        omega)
      (by rfl)).1 113 (by rfl) (by refine ⟨?_, ?_, ?_, ?_, ?_, ?_⟩ <;> decide)
  · exact (C7_invalid_escape.1 { input := [39, 92, 113, 39], index := 0, line := 1, column := 1 }
      (Lexer.skip_trivia { input := [39, 92, 113, 39], index := 0, line := 1, column := 1 })
      rfl (by rfl) (by rfl)).1 113 (by rfl) (by refine ⟨?_, ?_, ?_, ?_, ?_, ?_⟩ <;> decide)

end HmLexer
